import Mathlib

/-! Verification of substrate-go `rpc/client.go`: block reconciliation and runtime
lifecycle.

A shallow embedding of `rpc/client.go`.  Go code that can panic is modelled by
functions whose result records the panic; the state a deferred `recover`
observes is carried in the result.  Collaborators that live outside the file
(`config`, `ss58`, the SCALE codec, `blake2b`) are taken as parameters.
-/

namespace SubstrateGo

/-! ## Data model -/

/-- Modelled from the spec: one entry of `v11.UtilityParamsValue.CallArgs` (package
`model/v11` is not among the sources), with the fields `client.go` reads. -/
structure UtilityCallArg where
  Name : String
  ValueRaw : String
  deriving DecidableEq, Repr

/-- Modelled from the spec: the Go struct `v11.UtilityParamsValue` (package `model/v11`
is not among the sources), one inner call of a batch. -/
structure UtilityParamsValue where
  CallModule : String
  CallFunction : String
  CallArgs : List UtilityCallArg
  deriving DecidableEq, Repr

/-- A decoded value held in an `interface{}` field.  `str` is a Go `string`,
`num n` a `float64` whose `int64` conversion is `n`, `arr r` a `[]interface{}`
together with the outcome `r` of re-marshalling it into
`[]v11.UtilityParamsValue` (`none` when `json.Unmarshal` reports an error);
`other` stands for every remaining dynamic type (nil, bool, map). -/
inductive JValue where
  | str (s : String)
  | num (n : Int)
  | arr (r : Option (List UtilityParamsValue))
  | other
  deriving DecidableEq, Repr

/-- The type assertion `v.(string)` succeeds. -/
def JValue.isStr : JValue → Bool
  | .str _ => true
  | _ => false

/-- The number behind a successful type assertion `v.(float64)`. -/
def JValue.asNum : JValue → Option Int
  | .num n => some n
  | _ => none

/-- Modelled from the spec: a parameter of a decoded event, an element of
`v11.EventResponse.Params` (package `model/v11` is not among the sources). -/
structure EventParam where
  Type_ : String
  Value : JValue
  deriving DecidableEq, Repr

/-- Modelled from the spec: the Go struct `v11.EventResponse` (package `model/v11` is
not among the sources), the spec's DecodedEvent. -/
structure EventResponse where
  EventId : String
  ModuleId : String
  ExtrinsicIdx : Int
  EventIdx : Int
  Params : List EventParam
  deriving DecidableEq, Repr

/-- The collaborators of `client.go` outside the file: the pieces of package
`config` and `ss58` it uses, the BLAKE2b digest and `strings.ToLower`. -/
structure Config where
  IsContainFeeEventId : String → Bool
  ExtrinsicFailed : String
  ExtrinsicSuccess : String
  Transfer : String
  PrefixMap : String → List Nat
  EncodeByPubHex : String → List Nat → String
  digestHex : String → String
  ToLower : String → String

/-! ## Library functions -/

/-- Go `strings.Contains`. -/
def strContains (s sub : String) : Bool :=
  s.data.tails.any (fun t => sub.data.isPrefixOf t)

/-- Accumulates a run of ASCII decimal digits; `none` on any other byte. -/
def scanDigits : List Char → Nat → Option Nat
  | [], acc => some acc
  | c :: cs, acc =>
    if c.isDigit then scanDigits cs (acc * 10 + (c.toNat - 48)) else none

/-- Unsigned part of `big.Int.SetString(_, 10)`: at least one digit. -/
def scanNat (cs : List Char) : Option Nat :=
  if cs.isEmpty then none else scanDigits cs 0

/-- Go `new(big.Int).SetString(s, 10)`: an optional sign followed by one or
more decimal digits and nothing else; `none` is `isOk == false`. -/
def setString10 (s : String) : Option Int :=
  match s.data with
  | '+' :: cs => (scanNat cs).map Int.ofNat
  | '-' :: cs => (scanNat cs).map (fun n => - Int.ofNat n)
  | cs => (scanNat cs).map Int.ofNat

/-- Go `(*big.Int).String()`: the decimal digits, after a minus sign for a
negative number. -/
def bigString : Int → String
  | .ofNat m => String.mk (Nat.toDigits 10 m)
  | .negSucc m => String.mk ('-' :: Nat.toDigits 10 (m + 1))

/-- A decimal string: an optional minus sign followed by one or more decimal
digits and nothing else. -/
def isDecimal (s : String) : Bool :=
  let ds := if s.data.head? = some '-' then s.data.tail else s.data
  !ds.isEmpty && ds.all Char.isDigit

/-! ## `calcFee` -/

/-- The inner `for _, param := range event.Params` loop of `calcFee`, shared by
the `Treasury` and `Balances` cases.  `none` is the panic of the type assertion
`param.Value.(string)`. -/
def addBalanceParams : List EventParam → Int → Option Int
  | [], fee => some fee
  | param :: rest, fee =>
    if strContains param.Type_ "Balance" then
      match param.Value with
      | .str value =>
        match setString10 value with
        | none => addBalanceParams rest fee
        | some subFee => addBalanceParams rest (fee + subFee)
      | _ => none
    else addBalanceParams rest fee

/-- The outer `for _, event := range events` loop of `calcFee`. -/
def calcFeeLoop (cfg : Config) (extrinsicIdx : Int) : List EventResponse → Int → Option Int
  | [], fee => some fee
  | event :: rest, fee =>
    if event.ExtrinsicIdx = extrinsicIdx then
      if cfg.IsContainFeeEventId event.EventId then
        if event.ModuleId = "Treasury" then
          if event.Params.length = 0 then calcFeeLoop cfg extrinsicIdx rest fee
          else
            match addBalanceParams event.Params fee with
            | none => none
            | some fee1 => calcFeeLoop cfg extrinsicIdx rest fee1
        else if event.ModuleId = "Balances" then
          if event.Params.length = 0 then calcFeeLoop cfg extrinsicIdx rest fee
          else
            match addBalanceParams event.Params fee with
            | none => none
            | some fee1 => calcFeeLoop cfg extrinsicIdx rest fee1
        else calcFeeLoop cfg extrinsicIdx rest fee
      else calcFeeLoop cfg extrinsicIdx rest fee
    else calcFeeLoop cfg extrinsicIdx rest fee

/-- Go `calcFee`; `none` when the call panics. -/
def calcFee (cfg : Config) (events : List EventResponse) (extrinsicIdx : Int) : Option String :=
  (calcFeeLoop cfg extrinsicIdx events 0).map bigString

/-- A concrete configuration used to evaluate the model. -/
def demoConfig : Config where
  IsContainFeeEventId := fun id => id = "Deposit" || id = "Withdraw"
  ExtrinsicFailed := "ExtrinsicFailed"
  ExtrinsicSuccess := "ExtrinsicSuccess"
  Transfer := "Transfer"
  PrefixMap := fun coin => if coin = "polkadot" then [0] else if coin = "kusama" then [2] else []
  EncodeByPubHex := fun pub pre => "addr" ++ toString pre.length ++ ":" ++ pub
  digestHex := fun raw => "h(" ++ raw ++ ")"
  ToLower := fun s => String.mk (s.data.map Char.toLower)

/-! ## Specification of the fee sum -/

/-- Spec: the event belongs to the extrinsic index, its identifier is in the
fee-bearing set and its module is `Treasury` or `Balances`. -/
def feeBearing (cfg : Config) (extrinsicIdx : Int) (ev : EventResponse) : Bool :=
  decide (ev.ExtrinsicIdx = extrinsicIdx) && cfg.IsContainFeeEventId ev.EventId &&
    (decide (ev.ModuleId = "Treasury") || decide (ev.ModuleId = "Balances"))

/-- Spec: the integer a parameter stands for when its type name contains
"Balance" and its value is a string that parses in base 10. -/
def parsedBalance (p : EventParam) : Option Int :=
  if strContains p.Type_ "Balance" then
    match p.Value with
    | .str s => setString10 s
    | _ => none
  else none

/-- Spec: the sum, over the fee-bearing events of the index, of every
parameter that `parsedBalance` accepts. -/
def feeSum (cfg : Config) (events : List EventResponse) (extrinsicIdx : Int) : Int :=
  ((events.filter (feeBearing cfg extrinsicIdx)).map
    (fun ev => (ev.Params.filterMap parsedBalance).sum)).sum

/-- Every Balance-typed parameter of the fee-bearing events of the index
carries a string value. -/
def FeeParamsAreStrings (cfg : Config) (events : List EventResponse) (extrinsicIdx : Int) : Prop :=
  ∀ ev ∈ events, feeBearing cfg extrinsicIdx ev = true →
    ∀ p ∈ ev.Params, strContains p.Type_ "Balance" = true → p.Value.isStr = true

instance (cfg : Config) (events : List EventResponse) (extrinsicIdx : Int) :
    Decidable (FeeParamsAreStrings cfg events extrinsicIdx) :=
  inferInstanceAs (Decidable (∀ ev ∈ events, feeBearing cfg extrinsicIdx ev = true →
    ∀ p ∈ ev.Params, strContains p.Type_ "Balance" = true → p.Value.isStr = true))

/-- A Balance-typed parameter whose string value does not parse in base 10. -/
def unparsable (p : EventParam) : Bool :=
  strContains p.Type_ "Balance" &&
    (match p.Value with
     | .str s => (setString10 s).isNone
     | _ => false)

/-- The event list with every unparsable Balance-typed string parameter deleted. -/
def dropUnparsable (events : List EventResponse) : List EventResponse :=
  events.map (fun ev => { ev with Params := ev.Params.filter (fun p => !unparsable p) })

/-- A sample event log: two fee events of extrinsic 2 (one with a Balance
parameter that does not parse), a fee event of another module, and a fee event
of extrinsic 3 whose Balance parameter is a number instead of a string. -/
def feeEvents : List EventResponse :=
  [⟨"Deposit", "Treasury", 2, 0, [⟨"Balance", .str "10"⟩]⟩,
   ⟨"Deposit", "Balances", 2, 1,
     [⟨"AccountId", .str "aa"⟩, ⟨"BalanceOf", .str "5"⟩, ⟨"Balance", .str "x"⟩]⟩,
   ⟨"Deposit", "Staking", 2, 2, [⟨"Balance", .str "100"⟩]⟩,
   ⟨"Deposit", "Balances", 3, 3, [⟨"Balance", .num 4⟩, ⟨"Balance", .str "7"⟩]⟩]

/-! ## `parseExtrinsicByStorage` -/

/-- Modelled from the spec: the Go struct `v11.ExtrinsicResponse` (package `model/v11`
is not among the sources), the enriched extrinsic record of the spec, with the
fields `client.go` reads or writes. -/
structure ExtrinsicResponse where
  Type_ : String := ""
  Status : String := ""
  Amount : String := ""
  Fee : String := ""
  Txid : String := ""
  FromAddress : String := ""
  ToAddress : String := ""
  Signature : String := ""
  Nonce : Int := 0
  Era : String := ""
  ExtrinsicIndex : Int := 0
  EventIndex : Int := 0
  deriving DecidableEq, Repr

/-- Modelled from the spec: the Go struct `v11.BlockResponse` (package `model/v11` is
not among the sources). -/
structure BlockResponse where
  Height : Int := 0
  ParentHash : String := ""
  BlockHash : String := ""
  Timestamp : Int := 0
  Extrinsic : List ExtrinsicResponse := []
  deriving DecidableEq, Repr

/-- Modelled from the spec: the Go struct `v11.EventResult` (package `model/v11` is not
among the sources), the spec's CorrelationResult. -/
structure EventResult where
  ExtrinsicIdx : Int := 0
  EventIdx : Int := 0
  From : String := ""
  To : String := ""
  Amount : String := ""
  deriving DecidableEq, Repr

/-- `ss58.EncodeByPubHex(pub, config.PrefixMap[client.CoinType])` with the
error result dropped, as at every call site. -/
def encodeAddress (cfg : Config) (coinType : String) (pubHex : String) : String :=
  cfg.EncodeByPubHex pubHex (cfg.PrefixMap coinType)

/-- Go `statusMap[k] = v` on a `map[int]bool`. -/
def statusSet (m : Int → Option Bool) (k : Int) (v : Bool) : Int → Option Bool :=
  fun j => if j = k then some v else m j

/-- Go `statusMap[k]` read: the zero value `false` when the key is absent. -/
def statusGet (m : Int → Option Bool) (k : Int) : Bool :=
  (m k).getD false

/-- The loop `for i, param := range event.Params` that fills one
`v11.EventResult` (lines 466-480).  `none` is the panic of a failed
`param.Value.(string)`. -/
def transferParams (cfg : Config) (coinType : String) :
    List EventParam → Nat → EventResult → Option EventResult
  | [], _, res => some res
  | param :: rest, i, res =>
    let afterAccount : Option EventResult :=
      if param.Type_ = "AccountId" then
        let afterFrom : Option EventResult :=
          if i = 0 then
            match param.Value with
            | .str v => some { res with From := encodeAddress cfg coinType v }
            | _ => none
          else some res
        match afterFrom with
        | none => none
        | some res1 =>
          if i = 1 then
            match param.Value with
            | .str v => some { res1 with To := encodeAddress cfg coinType v }
            | _ => none
          else some res1
      else some res
    match afterAccount with
    | none => none
    | some res2 =>
      if param.Type_ = "Balance" then
        match param.Value with
        | .str v => transferParams cfg coinType rest (i + 1) { res2 with Amount := v }
        | _ => none
      else transferParams cfg coinType rest (i + 1) res2

/-- The correlation result built for one `Balances` `Transfer` event that has
parameters (lines 463-480). -/
def eventCorrelation (cfg : Config) (coinType : String) (event : EventResponse) :
    Option EventResult :=
  transferParams cfg coinType event.Params 0
    { ExtrinsicIdx := event.ExtrinsicIdx, EventIdx := event.EventIdx }

/-- The first loop of `parseExtrinsicByStorage` (lines 450-486): one pass over the
events, building `statusMap` and `result`.  `none` is a panic. -/
def scanEvents (cfg : Config) (coinType : String) :
    List EventResponse → (Int → Option Bool) → List EventResult →
      Option ((Int → Option Bool) × List EventResult)
  | [], statusMap, result => some (statusMap, result)
  | event :: rest, statusMap, result =>
    if event.EventId = cfg.ExtrinsicFailed then
      scanEvents cfg coinType rest (statusSet statusMap event.ExtrinsicIdx false) result
    else if event.EventId = cfg.ExtrinsicSuccess then
      scanEvents cfg coinType rest (statusSet statusMap event.ExtrinsicIdx true) result
    else if event.EventId = cfg.Transfer then
      if event.ModuleId = "Balances" then
        if event.Params.length ≤ 0 then
          scanEvents cfg coinType rest (statusSet statusMap event.ExtrinsicIdx false) result
        else
          match eventCorrelation cfg coinType event with
          | none => none
          | some res => scanEvents cfg coinType rest statusMap (result ++ [res])
      else scanEvents cfg coinType rest statusMap result
    else scanEvents cfg coinType rest statusMap result

/-- The inner loop `for _, res := range result` for one record `e` (lines
489-503).  The second component is `true` when `calcFee` panicked; the record
returned then holds the fields written before the panic. -/
def mergeResults (cfg : Config) (events : List EventResponse) (statusMap : Int → Option Bool) :
    ExtrinsicResponse → List EventResult → ExtrinsicResponse × Bool
  | e, [] => (e, false)
  | e, res :: rest =>
    if e.ExtrinsicIndex = res.ExtrinsicIdx ∧ e.ToAddress = res.To then
      let e1 : ExtrinsicResponse :=
        { e with
          Status := if statusGet statusMap e.ExtrinsicIndex then "success" else "fail"
          Type_ := "transfer"
          Amount := res.Amount }
      match calcFee cfg events e1.ExtrinsicIndex with
      | none => (e1, true)
      | some fee =>
        mergeResults cfg events statusMap
          { e1 with Fee := fee, EventIndex := res.EventIdx, ToAddress := res.To } rest
    else mergeResults cfg events statusMap e rest

/-- The outer loop `for _, e := range blockResp.Extrinsic` (lines 487-504).  The
records are updated in place, so after a panic the records already visited keep
their updates and the remaining ones are untouched. -/
def mergeExtrinsics (cfg : Config) (events : List EventResponse)
    (statusMap : Int → Option Bool) (result : List EventResult) :
    List ExtrinsicResponse → List ExtrinsicResponse × Bool
  | [] => ([], false)
  | e :: rest =>
    match mergeResults cfg events statusMap e result with
    | (e1, true) => (e1 :: rest, true)
    | (e1, false) =>
      let r := mergeExtrinsics cfg events statusMap result rest
      (e1 :: r.1, r.2)

/-- What the call of `parseExtrinsicByStorage` meets before its own loops: the
storage key derivation, the RPC request and the external events decoder. -/
inductive EventsFetch where
  | keyError (msg : String)
  | rpcError (msg : String)
  | decodePanic
  | marshalError
  | unmarshalError (msg : String)
  | decoded (eventResp : List EventResponse)
  deriving Repr

/-- The observable result of `parseExtrinsicByStorage`: the block response after
the call, the returned `error` (`none` is `nil`) and whether the deferred
`recover` caught a panic. -/
structure StorageOutcome where
  resp : BlockResponse
  err : Option String
  recovered : Bool
  deriving Repr

/-- Go `parseExtrinsicByStorage`. -/
def parseExtrinsicByStorage (cfg : Config) (coinType : String) (fetch : EventsFetch)
    (blockResp : BlockResponse) : StorageOutcome :=
  match fetch with
  | .keyError msg => ⟨blockResp, some ("create stroage key error,err=" ++ msg), false⟩
  | .rpcError msg => ⟨blockResp, some ("get system events error,err=" ++ msg), false⟩
  | .decodePanic => ⟨blockResp, none, true⟩
  | .marshalError => ⟨blockResp, none, false⟩
  | .unmarshalError msg => ⟨blockResp, some ("parse events error,err=" ++ msg), false⟩
  | .decoded eventResp =>
    if eventResp.length > 0 then
      match scanEvents cfg coinType eventResp (fun _ => none) [] with
      | none => ⟨blockResp, none, true⟩
      | some (statusMap, result) =>
        let r := mergeExtrinsics cfg eventResp statusMap result blockResp.Extrinsic
        ⟨{ blockResp with Extrinsic := r.1 }, none, r.2⟩
    else ⟨blockResp, none, false⟩

/-! ## Specification of the event correlation -/

/-- Spec: the event is dispatched to the `case config.Transfer` of the switch,
belongs to module `Balances` and carries at least one parameter. -/
def isBalancesTransfer (cfg : Config) (ev : EventResponse) : Bool :=
  !decide (ev.EventId = cfg.ExtrinsicFailed) && !decide (ev.EventId = cfg.ExtrinsicSuccess) &&
    decide (ev.EventId = cfg.Transfer) && decide (ev.ModuleId = "Balances") &&
    decide (0 < ev.Params.length)

/-- Spec: the entry an event writes into the success map, if any: `false` for
`ExtrinsicFailed`, `true` for `ExtrinsicSuccess`, `false` for a `Balances`
`Transfer` event without parameters. -/
def statusEntry (cfg : Config) (ev : EventResponse) : Option Bool :=
  if ev.EventId = cfg.ExtrinsicFailed then some false
  else if ev.EventId = cfg.ExtrinsicSuccess then some true
  else if ev.EventId = cfg.Transfer ∧ ev.ModuleId = "Balances" ∧ ev.Params.length = 0 then
    some false
  else none

/-- Spec: the success map at an index is the entry written by the last event of
that index that writes one; `none` when there is no such event. -/
def successMap (cfg : Config) (events : List EventResponse) (idx : Int) : Option Bool :=
  (events.filterMap (fun ev =>
    if ev.ExtrinsicIdx = idx then statusEntry cfg ev else none)).getLast?

/-- Spec: the correlation results, one per `Balances` `Transfer` event with
parameters, in event-log order. -/
def correlations (cfg : Config) (coinType : String) (events : List EventResponse) :
    List EventResult :=
  events.filterMap (fun ev =>
    if isBalancesTransfer cfg ev then eventCorrelation cfg coinType ev else none)

/-- Spec: the join key of the merge rule on a correlation result. -/
def keyMatches (e : ExtrinsicResponse) (res : EventResult) : Bool :=
  decide (e.ExtrinsicIndex = res.ExtrinsicIdx) && decide (e.ToAddress = res.To)

/-- Spec: a `Balances` `Transfer` event with parameters whose extrinsic index and
event-derived recipient equal those of the record. -/
def matchesRecord (cfg : Config) (coinType : String) (e : ExtrinsicResponse)
    (ev : EventResponse) : Bool :=
  isBalancesTransfer cfg ev &&
    (match eventCorrelation cfg coinType ev with
     | some res => keyMatches e res
     | none => false)

/-- The fields of a record that identify the extrinsic. -/
def identity (e : ExtrinsicResponse) : Int × String × String × String × String × Int × String :=
  (e.ExtrinsicIndex, e.Txid, e.FromAddress, e.ToAddress, e.Signature, e.Nonce, e.Era)

/-- Spec: the record after the merge rule fired for correlation result `res`:
status from the success map, type `transfer`, amount and event index copied
from `res`, fee as computed by `calcFee`. -/
def enrich (e : ExtrinsicResponse) (success : Bool) (res : EventResult) (fee : String) :
    ExtrinsicResponse :=
  { e with
    Status := if success then "success" else "fail"
    Type_ := "transfer"
    Amount := res.Amount
    Fee := fee
    EventIndex := res.EventIdx }

/-- A sample `Balances` `Transfer` event of extrinsic 2: "aa" pays 1000 to "bb". -/
def transferEvent : EventResponse :=
  ⟨"Transfer", "Balances", 2, 0,
    [⟨"AccountId", .str "aa"⟩, ⟨"AccountId", .str "bb"⟩, ⟨"Balance", .str "1000"⟩]⟩

/-- A sample event log of extrinsic 2: the transfer, two fee deposits and the
success marker. -/
def goodEvents : List EventResponse :=
  [transferEvent,
   ⟨"Deposit", "Treasury", 2, 1, [⟨"Balance", .str "10"⟩]⟩,
   ⟨"Deposit", "Balances", 2, 2, [⟨"AccountId", .str "cc"⟩, ⟨"Balance", .str "5"⟩]⟩,
   ⟨"ExtrinsicSuccess", "System", 2, 3, []⟩]

/-- A sample event log in which a later `Transfer` event carries a Balance
parameter that is not a string, so that the event pass panics. -/
def scanPanicEvents : List EventResponse :=
  [transferEvent, ⟨"Transfer", "Balances", 3, 1, [⟨"Balance", .num 5⟩]⟩]

/-- A sample event log in which a fee event of extrinsic 2 carries a Balance
parameter that is not a string, so that `calcFee` panics during the merge. -/
def feePanicEvents : List EventResponse :=
  [transferEvent, ⟨"Deposit", "Treasury", 2, 1, [⟨"Balance", .num 5⟩]⟩]

/-- A sample record as `parseExtrinsicByDecode` leaves it: extrinsic 2 paying "bb". -/
def sampleRecord : ExtrinsicResponse :=
  { Txid := "0xh(0x01)", FromAddress := "addr1:aa", ToAddress := "addr1:bb",
    Signature := "sig", Nonce := 7, Era := "00", ExtrinsicIndex := 2 }

/-- A sample record of extrinsic 4, for which the sample logs hold no transfer. -/
def otherRecord : ExtrinsicResponse :=
  { Txid := "0xh(0x02)", FromAddress := "addr1:aa", ToAddress := "addr1:dd",
    Signature := "sig2", Nonce := 8, Era := "00", ExtrinsicIndex := 4 }

/-- A sample block response holding the two sample records. -/
def sampleBlock : BlockResponse :=
  { Height := 100, BlockHash := "0xabc", Timestamp := 1600000000,
    Extrinsic := [sampleRecord, otherRecord] }

/-! ## `parseExtrinsicByDecode` -/

/-- Modelled from the spec: a parameter of a decoded extrinsic, an element of
`v11.ExtrinsicDecodeResponse.Params` (package `model/v11` is not among the
sources). -/
structure ExtrinsicParam where
  Name : String
  Value : JValue
  deriving DecidableEq, Repr

/-- Modelled from the spec: the Go struct `v11.ExtrinsicDecodeResponse` (package
`model/v11` is not among the sources), the spec's DecodedExtrinsic, with the
fields `client.go` reads. -/
structure ExtrinsicDecodeResponse where
  AccountId : String := ""
  CallModule : String := ""
  CallModuleFunction : String := ""
  Era : String := ""
  Signature : String := ""
  Nonce : Int := 0
  Params : List ExtrinsicParam := []
  deriving DecidableEq, Repr

/-- What lines 288-300 produce for one raw extrinsic: the external decoder may
panic (`e.Process()`, or a nil metadata handle), either JSON step may return an
error, or the decoded response is available. -/
inductive DecodeResult where
  | panic
  | marshalError (msg : String)
  | unmarshalError (msg : String)
  | ok (resp : ExtrinsicDecodeResponse)
  deriving DecidableEq, Repr

/-- The Go struct `parseBlockExtrinsicParams`. -/
structure parseBlockExtrinsicParams where
  from_ : String := ""
  to_ : String := ""
  sig : String := ""
  era : String := ""
  txid : String := ""
  nonce : Int := 0
  extrinsicIdx : Int := 0
  deriving DecidableEq, Repr

/-- Go `createTxHash`; `cfg.digestHex` is the hex rendering of the BLAKE2b-256
digest of the hex-decoded extrinsic. -/
def createTxHash (cfg : Config) (extrinsic : String) : String :=
  "0x" ++ cfg.digestHex extrinsic

/-- The `Timestamp` case (lines 303-307).  The second component is `true` when
the assertion `param.Value.(float64)` panicked; the first is the timestamp
variable at that moment. -/
def scanNow : List ExtrinsicParam → Int → Int × Bool
  | [], timestamp => (timestamp, false)
  | param :: rest, timestamp =>
    if param.Name = "now" then
      match param.Value with
      | .num v => scanNow rest v
      | _ => (timestamp, true)
    else scanNow rest timestamp

/-- The `dest` loop of the `Balances` case (lines 317-321); `none` is the panic
of `param.Value.(string)`. -/
def scanDest (cfg : Config) (coinType : String) :
    List ExtrinsicParam → parseBlockExtrinsicParams → Option parseBlockExtrinsicParams
  | [], blockData => some blockData
  | param :: rest, blockData =>
    if param.Name = "dest" then
      match param.Value with
      | .str v => scanDest cfg coinType rest { blockData with to_ := encodeAddress cfg coinType v }
      | _ => none
    else scanDest cfg coinType rest blockData

/-- The loop `for _, arg := range value.CallArgs` (lines 340-352). -/
def batchArgs (cfg : Config) (coinType : String) (i : Nat) (extrinsic : String)
    (resp : ExtrinsicDecodeResponse) :
    List UtilityCallArg → List parseBlockExtrinsicParams → List parseBlockExtrinsicParams
  | [], params => params
  | arg :: rest, params =>
    if arg.Name = "dest" then
      batchArgs cfg coinType i extrinsic resp rest
        (params ++ [{ from_ := encodeAddress cfg coinType resp.AccountId
                      era := resp.Era
                      sig := resp.Signature
                      nonce := resp.Nonce
                      extrinsicIdx := i
                      txid := createTxHash cfg extrinsic
                      to_ := encodeAddress cfg coinType arg.ValueRaw }])
    else batchArgs cfg coinType i extrinsic resp rest params

/-- The loop `for _, value := range values` (lines 336-356). -/
def batchValues (cfg : Config) (coinType : String) (i : Nat) (extrinsic : String)
    (resp : ExtrinsicDecodeResponse) :
    List UtilityParamsValue → List parseBlockExtrinsicParams → List parseBlockExtrinsicParams
  | [], params => params
  | value :: rest, params =>
    if value.CallModule = "Balances" then
      if value.CallFunction = "transfer" ∨ value.CallFunction = "transfer_keep_alive" then
        if value.CallArgs.length > 0 then
          batchValues cfg coinType i extrinsic resp rest
            (batchArgs cfg coinType i extrinsic resp value.CallArgs params)
        else batchValues cfg coinType i extrinsic resp rest params
      else batchValues cfg coinType i extrinsic resp rest params
    else batchValues cfg coinType i extrinsic resp rest params

/-- The loop `for _, param := range resp.Params` of the `Utility` case (lines
326-361). -/
def batchParams (cfg : Config) (coinType : String) (i : Nat) (extrinsic : String)
    (resp : ExtrinsicDecodeResponse) :
    List ExtrinsicParam → List parseBlockExtrinsicParams → List parseBlockExtrinsicParams
  | [], params => params
  | param :: rest, params =>
    if param.Name = "calls" then
      match param.Value with
      | .arr (some values) =>
        batchParams cfg coinType i extrinsic resp rest
          (batchValues cfg coinType i extrinsic resp values params)
      | .arr none => batchParams cfg coinType i extrinsic resp rest params
      | _ => batchParams cfg coinType i extrinsic resp rest params
    else batchParams cfg coinType i extrinsic resp rest params

/-- How the loop over the extrinsics ends: with a panic (the deferred function
then sees `timestamp`), with a returned error, or normally. -/
inductive LoopResult where
  | panicked (timestamp : Int)
  | failed (msg : String)
  | done (timestamp : Int) (params : List parseBlockExtrinsicParams)
  deriving DecidableEq, Repr

/-- The loop `for i, extrinsic := range extrinsics` (lines 286-383). -/
def decodeLoop (cfg : Config) (coinType : String) (decode : String → DecodeResult) :
    List String → Nat → Int → List parseBlockExtrinsicParams → LoopResult
  | [], _, timestamp, params => .done timestamp params
  | extrinsic :: rest, i, timestamp, params =>
    match decode extrinsic with
    | .panic => .panicked timestamp
    | .marshalError msg => .failed ("parse extrinsic error,err=" ++ msg)
    | .unmarshalError msg => .failed ("json unmarshal extrinsic error,err=" ++ msg)
    | .ok resp =>
      if resp.CallModule = "Timestamp" then
        match scanNow resp.Params timestamp with
        | (timestamp1, true) => .panicked timestamp1
        | (timestamp1, false) => decodeLoop cfg coinType decode rest (i + 1) timestamp1 params
      else if resp.CallModule = "Balances" then
        if resp.CallModuleFunction = "transfer"
            ∨ resp.CallModuleFunction = "transfer_keep_alive" then
          match scanDest cfg coinType resp.Params
              { from_ := encodeAddress cfg coinType resp.AccountId
                era := resp.Era
                sig := resp.Signature
                nonce := resp.Nonce
                extrinsicIdx := i
                txid := createTxHash cfg extrinsic } with
          | none => .panicked timestamp
          | some blockData =>
            decodeLoop cfg coinType decode rest (i + 1) timestamp (params ++ [blockData])
        else decodeLoop cfg coinType decode rest (i + 1) timestamp params
      else if resp.CallModule = "Utility" then
        if resp.CallModuleFunction = "batch" then
          decodeLoop cfg coinType decode rest (i + 1) timestamp
            (batchParams cfg coinType i extrinsic resp resp.Params params)
        else decodeLoop cfg coinType decode rest (i + 1) timestamp params
      else decodeLoop cfg coinType decode rest (i + 1) timestamp params

/-- The body of the final loop (lines 396-405): the record built from one
candidate. -/
def toRecord (param : parseBlockExtrinsicParams) : ExtrinsicResponse :=
  { Signature := param.sig
    FromAddress := param.from_
    ToAddress := param.to_
    Nonce := param.nonce
    Era := param.era
    ExtrinsicIndex := param.extrinsicIdx
    Txid := param.txid }

/-- The observable result of `parseExtrinsicByDecode`: the block response after
the call, the returned `error` and whether the deferred `recover` fired. -/
structure DecodeOutcome where
  resp : BlockResponse
  err : Option String
  recovered : Bool
  deriving DecidableEq, Repr

/-- Go `parseExtrinsicByDecode`. -/
def parseExtrinsicByDecode (cfg : Config) (coinType : String) (decode : String → DecodeResult)
    (extrinsics : List String) (blockResp : BlockResponse) : DecodeOutcome :=
  match decodeLoop cfg coinType decode extrinsics 0 0 [] with
  | .panicked timestamp =>
    ⟨{ blockResp with Timestamp := timestamp, Extrinsic := [] }, none, true⟩
  | .failed msg => ⟨blockResp, some msg, false⟩
  | .done timestamp params =>
    if params.length = 0 then
      ⟨{ blockResp with Timestamp := timestamp, Extrinsic := [] }, none, false⟩
    else
      ⟨{ blockResp with Timestamp := timestamp, Extrinsic := params.map toRecord }, none, false⟩

/-! ## Specification of the extrinsic pass -/

/-- A `now` parameter on which `param.Value.(float64)` panics. -/
def badNow (p : ExtrinsicParam) : Bool :=
  decide (p.Name = "now") && p.Value.asNum.isNone

/-- A `dest` parameter on which `param.Value.(string)` panics. -/
def badDest (p : ExtrinsicParam) : Bool :=
  decide (p.Name = "dest") && !p.Value.isStr

/-- Spec: the values of the `now` parameters, in order. -/
def nowValues (ps : List ExtrinsicParam) : List Int :=
  ps.filterMap (fun p => if p.Name = "now" then p.Value.asNum else none)

/-- Spec: the call is `Balances.transfer` or `Balances.transfer_keep_alive`. -/
def isDirectTransfer (resp : ExtrinsicDecodeResponse) : Bool :=
  decide (resp.CallModule = "Balances") &&
    (decide (resp.CallModuleFunction = "transfer")
      || decide (resp.CallModuleFunction = "transfer_keep_alive"))

/-- Spec: the call is `Utility.batch`. -/
def isBatch (resp : ExtrinsicDecodeResponse) : Bool :=
  decide (resp.CallModule = "Utility") && decide (resp.CallModuleFunction = "batch")

/-- Spec: the `now` values that the decode step of one raw extrinsic reads: those
of a `Timestamp` call, up to the first `now` parameter that is not a number. -/
def extrinsicNows (decode : String → DecodeResult) (raw : String) : List Int :=
  match decode raw with
  | .ok resp =>
    if resp.CallModule = "Timestamp" then
      nowValues (resp.Params.takeWhile (fun p => !badNow p))
    else []
  | _ => []

/-- Spec: the decode step of the raw extrinsic panics: in the decoder, on a
`now` parameter of a `Timestamp` call, or on the `dest` parameter of a direct
transfer. -/
def stepPanics (decode : String → DecodeResult) (raw : String) : Bool :=
  match decode raw with
  | .panic => true
  | .ok resp =>
    if resp.CallModule = "Timestamp" then resp.Params.any badNow
    else if isDirectTransfer resp then resp.Params.any badDest
    else false
  | _ => false

/-- Spec: the decode step of the raw extrinsic completes: the decoder and both
JSON steps succeed and no type assertion panics. -/
def stepOk (decode : String → DecodeResult) (raw : String) : Bool :=
  match decode raw with
  | .ok resp =>
    if resp.CallModule = "Timestamp" then !resp.Params.any badNow
    else if isDirectTransfer resp then !resp.Params.any badDest
    else true
  | _ => false

/-- Spec: the address of the last parameter named `dest`, or `d` without one. -/
def destOr (cfg : Config) (coinType : String) (ps : List ExtrinsicParam) (d : String) : String :=
  match (ps.filter (fun p => decide (p.Name = "dest"))).getLast? with
  | some p =>
    match p.Value with
    | .str v => encodeAddress cfg coinType v
    | _ => ""
  | none => d

/-- Spec: the candidate of a direct transfer at position `i`: the extrinsic's own
signer, signature, nonce and era, the hash of the raw extrinsic, and the
address of its `dest` parameter. -/
def directCandidate (cfg : Config) (coinType : String) (i : Nat) (raw : String)
    (resp : ExtrinsicDecodeResponse) : parseBlockExtrinsicParams :=
  { from_ := encodeAddress cfg coinType resp.AccountId
    to_ := destOr cfg coinType resp.Params ""
    sig := resp.Signature
    era := resp.Era
    txid := createTxHash cfg raw
    nonce := resp.Nonce
    extrinsicIdx := i }

/-- Spec: the candidate of one inner `dest` argument of a batch at position `i`:
everything from the outer extrinsic, the recipient from the argument. -/
def innerCandidate (cfg : Config) (coinType : String) (i : Nat) (raw : String)
    (resp : ExtrinsicDecodeResponse) (arg : UtilityCallArg) : parseBlockExtrinsicParams :=
  { from_ := encodeAddress cfg coinType resp.AccountId
    to_ := encodeAddress cfg coinType arg.ValueRaw
    sig := resp.Signature
    era := resp.Era
    txid := createTxHash cfg raw
    nonce := resp.Nonce
    extrinsicIdx := i }

/-- Spec: the inner call is a Balances transfer variant. -/
def isTransferCall (value : UtilityParamsValue) : Bool :=
  decide (value.CallModule = "Balances") &&
    (decide (value.CallFunction = "transfer")
      || decide (value.CallFunction = "transfer_keep_alive"))

/-- Spec: the inner calls that a `calls` parameter contributes: those of an array
value that `json.Unmarshal` accepts as `[]v11.UtilityParamsValue`; none for an
array it rejects (the whole array is skipped, whatever it holds) and none for
a value that is not an array. -/
def innerCalls (p : ExtrinsicParam) : List UtilityParamsValue :=
  match p.Value with
  | .arr (some values) => values
  | _ => []

/-- Spec: the candidates of a batch at position `i`: for each `calls` parameter
whose array unmarshals and each inner Balances transfer call of it, in order,
one candidate per argument named `dest`. -/
def batchCandidates (cfg : Config) (coinType : String) (i : Nat) (raw : String)
    (resp : ExtrinsicDecodeResponse) : List parseBlockExtrinsicParams :=
  (resp.Params.filter (fun p => decide (p.Name = "calls"))).flatMap (fun p =>
    ((innerCalls p).filter isTransferCall).flatMap (fun value =>
      (value.CallArgs.filter (fun arg => decide (arg.Name = "dest"))).map
        (innerCandidate cfg coinType i raw resp)))

/-- Spec: the candidates that the raw extrinsic at position `i` yields. -/
def extrinsicCandidates (cfg : Config) (coinType : String) (decode : String → DecodeResult)
    (i : Nat) (raw : String) : List parseBlockExtrinsicParams :=
  match decode raw with
  | .ok resp =>
    if isDirectTransfer resp then [directCandidate cfg coinType i raw resp]
    else if isBatch resp then batchCandidates cfg coinType i raw resp
    else []
  | _ => []

/-- Spec: the candidates of a run of raw extrinsics that starts at position `i`. -/
def candidatesFrom (cfg : Config) (coinType : String) (decode : String → DecodeResult) :
    Nat → List String → List parseBlockExtrinsicParams
  | _, [] => []
  | i, raw :: rest =>
    extrinsicCandidates cfg coinType decode i raw
      ++ candidatesFrom cfg coinType decode (i + 1) rest

/-- Spec: the `now` values of a raw extrinsic that decodes to a `Timestamp` call;
none for any other extrinsic. -/
def callNows (decode : String → DecodeResult) (raw : String) : List Int :=
  match decode raw with
  | .ok resp => if resp.CallModule = "Timestamp" then nowValues resp.Params else []
  | _ => []

/-- A sample decoder over eight raw extrinsics; in "0x07" the `calls` array is one
that `json.Unmarshal` rejects. -/
def demoDecode (raw : String) : DecodeResult :=
  if raw = "0x00" then
    .ok { CallModule := "Timestamp", CallModuleFunction := "set",
          Params := [⟨"now", .num 1600000000⟩] }
  else if raw = "0x01" then
    .ok { AccountId := "aa", CallModule := "Balances", CallModuleFunction := "transfer_keep_alive",
          Era := "00", Signature := "sig", Nonce := 7,
          Params := [⟨"dest", .str "bb"⟩, ⟨"value", .str "1000"⟩] }
  else if raw = "0x02" then
    .ok { AccountId := "aa", CallModule := "Utility", CallModuleFunction := "batch",
          Era := "00", Signature := "sig2", Nonce := 8,
          Params := [⟨"calls", .arr (some
            [⟨"Balances", "transfer", [⟨"dest", "cc"⟩, ⟨"value", "1"⟩]⟩,
             ⟨"System", "remark", [⟨"dest", "zz"⟩]⟩,
             ⟨"Balances", "transfer_keep_alive", [⟨"dest", "dd"⟩, ⟨"value", "2"⟩]⟩])⟩] }
  else if raw = "0x03" then
    .ok { AccountId := "aa", CallModule := "Staking", CallModuleFunction := "bond",
          Era := "00", Signature := "sig3", Nonce := 9, Params := [⟨"dest", .str "ee"⟩] }
  else if raw = "0x04" then .panic
  else if raw = "0x05" then
    .ok { CallModule := "Timestamp", CallModuleFunction := "set",
          Params := [⟨"now", .num 1⟩, ⟨"now", .str "x"⟩] }
  else if raw = "0x06" then
    .ok { AccountId := "aa", CallModule := "Utility", CallModuleFunction := "batch",
          Era := "00", Signature := "sig4", Nonce := 10,
          Params := [⟨"calls", .arr (some [⟨"Balances", "transfer", [⟨"value", "5"⟩]⟩])⟩] }
  else if raw = "0x07" then
    .ok { AccountId := "aa", CallModule := "Utility", CallModuleFunction := "batch",
          Era := "00", Signature := "sig5", Nonce := 11,
          Params := [⟨"calls", .arr none⟩] }
  else .marshalError "unsupported"

/-- A sample block: a timestamp, an unrelated call, a direct transfer and a batch. -/
def demoBlock : List String := ["0x00", "0x03", "0x01", "0x02"]

/-! ## `initRuntimeVersion` and `initMetaData` -/

/-- The parsed metadata handle `codes.MetadataDecoder`, identified by the bytes
it was initialised with. -/
structure MetadataDecoder where
  data : String
  deriving DecidableEq, Repr

/-- The Go struct `Client`, without the transport. -/
structure Client where
  Metadata : Option MetadataDecoder := none
  CoinType : String := ""
  SpecVersion : Int := 0
  TransactionVersion : Int := 0
  genesisHash : String := ""
  deriving DecidableEq, Repr

/-- What a call does to the outside: an RPC request or a metadata parse
(`m.Process()`). -/
inductive Effect where
  | request (method : String)
  | parseMetadata
  deriving DecidableEq, Repr

/-- The node's answer to `state_getRuntimeVersion`: a transport error, a body
that is not JSON, or a JSON object with the three fields that are read (an
absent field is the value `other`). -/
inductive VersionReply where
  | rpcError (msg : String)
  | jsonError (msg : String)
  | ok (specName transactionVersion specVersion : JValue)
  deriving DecidableEq, Repr

/-- The node's answer to `state_getMetadata` as `initMetaData` sees it: a
transport error, bytes that are not hex, bytes on which the parser
(`m.Init`, `m.Process`) panics, bytes it rejects with an error, or bytes it
accepts. -/
inductive MetadataReply where
  | rpcError (msg : String)
  | hexError (msg : String)
  | parsePanic
  | parseError (msg : String)
  | ok (data : String)
  deriving DecidableEq, Repr

/-- The observable result of `initRuntimeVersion`: the client afterwards, the
returned `error`, whether the call panicked (a failed type assertion or a
panic of the metadata parser; nothing recovers it, so it reaches the caller),
and the effects in order. -/
structure InitOutcome where
  client : Client
  err : Option String
  panicked : Bool
  effects : List Effect
  deriving DecidableEq, Repr

/-- Go `initMetaData`. -/
def initMetaData (reply : MetadataReply) (client : Client) : InitOutcome :=
  match reply with
  | .rpcError msg =>
    ⟨client, some ("rpc get metadata error,err=" ++ msg), false, [.request "state_getMetadata"]⟩
  | .hexError msg => ⟨client, some msg, false, [.request "state_getMetadata"]⟩
  | .parsePanic => ⟨client, none, true, [.request "state_getMetadata", .parseMetadata]⟩
  | .parseError msg =>
    ⟨client, some ("parse metadata error,err=" ++ msg), false,
      [.request "state_getMetadata", .parseMetadata]⟩
  | .ok data =>
    ⟨{ client with Metadata := some ⟨data⟩ }, none, false,
      [.request "state_getMetadata", .parseMetadata]⟩

/-- Go `initRuntimeVersion`.  `metadata` is the answer the node gives if
`state_getMetadata` is requested during this call. -/
def initRuntimeVersion (cfg : Config) (version : VersionReply) (metadata : MetadataReply)
    (client : Client) : InitOutcome :=
  match version with
  | .rpcError msg =>
    ⟨client, some ("init runtime version error,err=" ++ msg), false,
      [.request "state_getRuntimeVersion"]⟩
  | .jsonError msg =>
    ⟨client, some ("init runtime version error,err=" ++ msg), false,
      [.request "state_getRuntimeVersion"]⟩
  | .ok specName transactionVersion specVersion =>
    match specName with
    | .str name =>
      let client1 : Client := { client with CoinType := cfg.ToLower name }
      match transactionVersion.asNum with
      | some tv =>
        let client2 : Client := { client1 with TransactionVersion := tv }
        match specVersion.asNum with
        | some specVersion =>
          if client2.SpecVersion ≠ specVersion then
            let r := initMetaData metadata { client2 with SpecVersion := specVersion }
            ⟨r.client, r.err, r.panicked, .request "state_getRuntimeVersion" :: r.effects⟩
          else
            ⟨{ client2 with SpecVersion := specVersion }, none, false,
              [.request "state_getRuntimeVersion"]⟩
        | none => ⟨client2, none, true, [.request "state_getRuntimeVersion"]⟩
      | none => ⟨client1, none, true, [.request "state_getRuntimeVersion"]⟩
    | _ => ⟨client, none, true, [.request "state_getRuntimeVersion"]⟩

/-- The node reports spec name "Polkadot", transaction version 1 and the given
spec version. -/
def versionReply (specVersion : Int) : VersionReply :=
  .ok (.str "Polkadot") (.num 1) (.num specVersion)

/-- The first `initRuntimeVersion` call on a newly created client, with the
node reporting spec version `v`. -/
def firstCall (cfg : Config) (name : String) (tv v : Int) (m : MetadataReply) : InitOutcome :=
  initRuntimeVersion cfg (.ok (.str name) (.num tv) (.num v)) m {}

/-- The `initRuntimeVersion` call that follows `firstCall`, with the node
reporting the same spec name and spec version. -/
def secondCall (cfg : Config) (name : String) (tv1 tv2 v : Int) (m1 m2 : MetadataReply) :
    InitOutcome :=
  initRuntimeVersion cfg (.ok (.str name) (.num tv2) (.num v)) m2 (firstCall cfg name tv1 v m1).client

/-- A session: the node reports spec version 4 and serves its metadata. -/
def sessionStart : InitOutcome :=
  initRuntimeVersion demoConfig (versionReply 4) (.ok "meta4") {}

/-- The runtime is upgraded to spec version 5, and the metadata refresh fails. -/
def sessionFailedRefresh : InitOutcome :=
  initRuntimeVersion demoConfig (versionReply 5) (.parseError "bad") sessionStart.client

/-- The next call: the node still reports spec version 5 and would now serve the
metadata of version 5. -/
def sessionRetry : InitOutcome :=
  initRuntimeVersion demoConfig (versionReply 5) (.ok "meta5") sessionFailedRefresh.client

/-! ## Theorems -/


theorem JValue.isStr_iff (v : JValue) : v.isStr = true ↔ ∃ s, v = .str s := by
  cases v <;> simp [JValue.isStr]

theorem addBalanceParams_sum (ps : List EventParam) (fee : Int)
    (h : ∀ p ∈ ps, strContains p.Type_ "Balance" = true → p.Value.isStr = true) :
    addBalanceParams ps fee = some (fee + (ps.filterMap parsedBalance).sum) := by
  induction ps generalizing fee with
  | nil => simp [addBalanceParams]
  | cons p rest ih =>
    have hrest : ∀ q ∈ rest, strContains q.Type_ "Balance" = true → q.Value.isStr = true :=
      fun q hq => h q (List.mem_cons_of_mem _ hq)
    by_cases hc : strContains p.Type_ "Balance" = true
    · obtain ⟨s, hs⟩ := (JValue.isStr_iff _).1 (h p (List.mem_cons_self _ _) hc)
      cases hp : setString10 s with
      | none =>
        simp [addBalanceParams, hc, hs, hp, ih fee hrest, List.filterMap_cons, parsedBalance]
      | some v =>
        simp [addBalanceParams, hc, hs, hp, ih (fee + v) hrest, List.filterMap_cons,
          parsedBalance, add_assoc]
    · simp [addBalanceParams, hc, ih fee hrest, List.filterMap_cons, parsedBalance]

theorem calcFeeLoop_sum (cfg : Config) (idx : Int) (events : List EventResponse) (fee : Int)
    (h : FeeParamsAreStrings cfg events idx) :
    calcFeeLoop cfg idx events fee = some (fee + feeSum cfg events idx) := by
  induction events generalizing fee with
  | nil => simp [calcFeeLoop, feeSum]
  | cons ev rest ih =>
    have hrest : FeeParamsAreStrings cfg rest idx :=
      fun e he => h e (List.mem_cons_of_mem _ he)
    have hev := h ev (List.mem_cons_self _ _)
    have ihr := fun f => ih f hrest
    unfold feeSum at ihr ⊢
    by_cases h1 : ev.ExtrinsicIdx = idx
    · by_cases h2 : cfg.IsContainFeeEventId ev.EventId = true
      · by_cases h3 : ev.ModuleId = "Treasury"
        · have hb : feeBearing cfg idx ev = true := by simp [feeBearing, h1, h2, h3]
          have hp := addBalanceParams_sum ev.Params fee (hev hb)
          by_cases h4 : ev.Params = []
          · simp [calcFeeLoop, h1, h2, h3, h4, hb, ihr, List.filter_cons]
          · simp [calcFeeLoop, h1, h2, h3, h4, hb, ihr, hp, List.filter_cons, add_assoc]
        · by_cases h5 : ev.ModuleId = "Balances"
          · have hb : feeBearing cfg idx ev = true := by simp [feeBearing, h1, h2, h5]
            have hp := addBalanceParams_sum ev.Params fee (hev hb)
            by_cases h4 : ev.Params = []
            · simp [calcFeeLoop, h1, h2, h3, h5, h4, hb, ihr, List.filter_cons]
            · simp [calcFeeLoop, h1, h2, h3, h5, h4, hb, ihr, hp, List.filter_cons, add_assoc]
          · have hb : feeBearing cfg idx ev = false := by simp [feeBearing, h3, h5]
            simp [calcFeeLoop, h1, h2, h3, h5, hb, ihr, List.filter_cons]
      · have hb : feeBearing cfg idx ev = false := by simp [feeBearing, h2]
        simp [calcFeeLoop, h1, h2, hb, ihr, List.filter_cons]
    · have hb : feeBearing cfg idx ev = false := by simp [feeBearing, h1]
      simp [calcFeeLoop, h1, hb, ihr, List.filter_cons]

theorem calcFeeLoop_filter_modules (cfg : Config) (idx : Int) (events : List EventResponse)
    (fee : Int) :
    calcFeeLoop cfg idx (events.filter (fun ev =>
        decide (ev.ModuleId = "Treasury") || decide (ev.ModuleId = "Balances"))) fee
      = calcFeeLoop cfg idx events fee := by
  induction events generalizing fee with
  | nil => rfl
  | cons ev rest ih =>
    by_cases h3 : ev.ModuleId = "Treasury"
    · simp only [List.filter_cons, h3, decide_True, Bool.true_or, if_true, calcFeeLoop, ih]
    · by_cases h5 : ev.ModuleId = "Balances"
      · simp only [List.filter_cons, h5, decide_True, Bool.or_true, if_true, calcFeeLoop, ih]
      · simp [List.filter_cons, h3, h5, calcFeeLoop, ih]

theorem addBalanceParams_filter (ps : List EventParam) (fee : Int) :
    addBalanceParams (ps.filter (fun p => !unparsable p)) fee = addBalanceParams ps fee := by
  induction ps generalizing fee with
  | nil => rfl
  | cons p rest ih =>
    by_cases hc : strContains p.Type_ "Balance" = true
    · cases hv : p.Value with
      | str s =>
        cases hp : setString10 s with
        | none =>
          have hu : unparsable p = true := by simp [unparsable, hc, hv, hp]
          simp [List.filter_cons, hu, hc, hv, hp, addBalanceParams, ih]
        | some v =>
          have hu : unparsable p = false := by simp [unparsable, hc, hv, hp]
          simp [List.filter_cons, hu, hc, hv, hp, addBalanceParams, ih]
      | num n =>
        have hu : unparsable p = false := by simp [unparsable, hc, hv]
        simp [List.filter_cons, hu, hc, hv, addBalanceParams]
      | arr r =>
        have hu : unparsable p = false := by simp [unparsable, hc, hv]
        simp [List.filter_cons, hu, hc, hv, addBalanceParams]
      | other =>
        have hu : unparsable p = false := by simp [unparsable, hc, hv]
        simp [List.filter_cons, hu, hc, hv, addBalanceParams]
    · have hu : unparsable p = false := by simp [unparsable, hc]
      simp [List.filter_cons, hu, hc, addBalanceParams, ih]

theorem calcFeeLoop_dropUnparsable (cfg : Config) (idx : Int) (events : List EventResponse)
    (fee : Int) :
    calcFeeLoop cfg idx (dropUnparsable events) fee = calcFeeLoop cfg idx events fee := by
  induction events generalizing fee with
  | nil => rfl
  | cons ev rest ih =>
    have ih2 : ∀ f, calcFeeLoop cfg idx (List.map (fun ev =>
        { ev with Params := ev.Params.filter (fun p => !unparsable p) }) rest) f
        = calcFeeLoop cfg idx rest f := ih
    have hf := addBalanceParams_filter ev.Params fee
    by_cases h4 : ev.Params = []
    · simp [dropUnparsable, calcFeeLoop, h4, ih2]
    · by_cases h6 : ev.Params.filter (fun p => !unparsable p) = []
      · rw [h6] at hf
        simp only [addBalanceParams] at hf
        simp [dropUnparsable, calcFeeLoop, h4, h6, ih2, ← hf]
      · simp [dropUnparsable, calcFeeLoop, h4, h6, ih2, hf]

/-! ### Decimal rendering -/

theorem digitChar_isDigit (n : Nat) : (Nat.digitChar (n % 10)).isDigit = true := by
  have h : n % 10 < 10 := Nat.mod_lt _ (by decide)
  interval_cases (n % 10) <;> decide

theorem toDigitsCore_digits (fuel n : Nat) (ds : List Char)
    (h : ∀ c ∈ ds, c.isDigit = true) :
    ∀ c ∈ Nat.toDigitsCore 10 fuel n ds, c.isDigit = true := by
  induction fuel generalizing n ds with
  | zero => simpa [Nat.toDigitsCore] using h
  | succ f ih =>
    have hd : ∀ c ∈ Nat.digitChar (n % 10) :: ds, c.isDigit = true := by
      intro c hc
      rcases List.mem_cons.mp hc with h1 | h1
      · rw [h1]; exact digitChar_isDigit n
      · exact h c h1
    simp only [Nat.toDigitsCore]
    split
    · exact hd
    · exact ih _ _ hd

theorem toDigitsCore_ne_nil (fuel n : Nat) (ds : List Char) (h : ds ≠ [] ∨ 0 < fuel) :
    Nat.toDigitsCore 10 fuel n ds ≠ [] := by
  induction fuel generalizing n ds with
  | zero =>
    rcases h with h | h
    · simpa [Nat.toDigitsCore] using h
    · cases h
  | succ f ih =>
    simp only [Nat.toDigitsCore]
    split
    · exact List.cons_ne_nil _ _
    · exact ih _ _ (Or.inl (List.cons_ne_nil _ _))

theorem isDecimal_bigString (n : Int) : isDecimal (bigString n) = true := by
  have hall : ∀ m, ∀ c ∈ Nat.toDigits 10 m, c.isDigit = true := fun m =>
    toDigitsCore_digits (m + 1) m [] (fun c hc => by cases hc)
  have hne : ∀ m, Nat.toDigits 10 m ≠ [] := fun m =>
    toDigitsCore_ne_nil (m + 1) m [] (Or.inr (Nat.succ_pos _))
  cases n with
  | ofNat m =>
    have hhead : (Nat.toDigits 10 m).head? ≠ some '-' := by
      intro hh
      have hmem : '-' ∈ Nat.toDigits 10 m := List.mem_of_mem_head? hh
      have := hall m '-' hmem
      exact absurd this (by decide)
    simp only [isDecimal, bigString, if_neg hhead]
    simp only [Bool.and_eq_true, Bool.not_eq_true', List.isEmpty_eq_false, List.all_eq_true]
    exact ⟨hne m, hall m⟩
  | negSucc m =>
    simp only [isDecimal, bigString, List.head?_cons, if_true, List.tail_cons]
    simp only [Bool.and_eq_true, Bool.not_eq_true', List.isEmpty_eq_false, List.all_eq_true]
    exact ⟨hne (m + 1), hall (m + 1)⟩

/-! ### `calcFee` -/

/-- C1: when every Balance-typed parameter of the fee-bearing `Treasury` and
`Balances` events of the index carries a string, `calcFee` returns the decimal
rendering of the sum of the parameters that parse in base 10; events of other
modules can be deleted without changing the result; and with no fee-bearing
event for the index the result is "0". -/
theorem calcFee_eq_feeSum (cfg : Config) (events : List EventResponse) (extrinsicIdx : Int)
    (h : FeeParamsAreStrings cfg events extrinsicIdx) :
    calcFee cfg events extrinsicIdx = some (bigString (feeSum cfg events extrinsicIdx))
    ∧ calcFee cfg (events.filter (fun ev =>
          decide (ev.ModuleId = "Treasury") || decide (ev.ModuleId = "Balances"))) extrinsicIdx
        = calcFee cfg events extrinsicIdx
    ∧ ((∀ ev ∈ events, ev.ExtrinsicIdx = extrinsicIdx →
          cfg.IsContainFeeEventId ev.EventId = false) →
        calcFee cfg events extrinsicIdx = some "0") := by
  have hsum := calcFeeLoop_sum cfg extrinsicIdx events 0 h
  refine ⟨?_, ?_, ?_⟩
  · simp [calcFee, hsum]
  · simp [calcFee, calcFeeLoop_filter_modules]
  · intro hno
    have hnil : events.filter (feeBearing cfg extrinsicIdx) = [] := by
      rw [List.filter_eq_nil_iff]
      intro ev hev hb
      simp only [feeBearing, Bool.and_eq_true, decide_eq_true_eq] at hb
      have := hno ev hev hb.1.1
      rw [this] at hb
      exact Bool.noConfusion hb.1.2
    have hz : feeSum cfg events extrinsicIdx = 0 := by simp [feeSum, hnil]
    simp only [calcFee, hsum, hz, Option.map_some', add_zero]
    rfl

/-- Witness of C1 on `feeEvents` at extrinsic 2: the fee is 10 + 5. -/
theorem calcFee_eq_feeSum_witness :
    FeeParamsAreStrings demoConfig feeEvents 2 ∧ calcFee demoConfig feeEvents 2 = some "15" :=
  ⟨by decide, (calcFee_eq_feeSum demoConfig feeEvents 2 (by decide)).1.trans (by decide)⟩

/-- C9 as stated fails: a Balance-typed parameter of a fee-bearing event whose
value is not a string makes `calcFee` panic instead of being skipped (the claim
would have the result "7"). -/
theorem calcFee_panics_on_non_string :
    calcFee demoConfig feeEvents 3 = none ∧ calcFee demoConfig feeEvents 3 ≠ some "7" := by
  decide

/-- C9 amended: when every Balance-typed parameter of the fee-bearing events of
the index carries a string, `calcFee` does not fail and returns a decimal
string; and in every case deleting the Balance-typed string parameters that
do not parse leaves the result unchanged, so they are skipped and the remaining
parameters are still summed. -/
theorem calcFee_skips_unparsable (cfg : Config) (events : List EventResponse)
    (extrinsicIdx : Int) (h : FeeParamsAreStrings cfg events extrinsicIdx) :
    (∃ s : String, calcFee cfg events extrinsicIdx = some s ∧ isDecimal s = true)
    ∧ calcFee cfg (dropUnparsable events) extrinsicIdx = calcFee cfg events extrinsicIdx := by
  refine ⟨⟨bigString (0 + feeSum cfg events extrinsicIdx), ?_, isDecimal_bigString _⟩, ?_⟩
  · simp [calcFee, calcFeeLoop_sum cfg extrinsicIdx events 0 h]
  · simp [calcFee, calcFeeLoop_dropUnparsable]

/-- Witness of the amended C9 on `feeEvents` at extrinsic 2, where the
parameter with value "x" is skipped. -/
theorem calcFee_skips_unparsable_witness :
    FeeParamsAreStrings demoConfig feeEvents 2
    ∧ (∃ s : String, calcFee demoConfig feeEvents 2 = some s ∧ isDecimal s = true)
    ∧ calcFee demoConfig (dropUnparsable feeEvents) 2 = calcFee demoConfig feeEvents 2 :=
  ⟨by decide, calcFee_skips_unparsable demoConfig feeEvents 2 (by decide)⟩

/-! ### `parseExtrinsicByStorage`: the event pass -/

theorem transferParams_idx (cfg : Config) (coin : String) (ps : List EventParam) (i : Nat)
    (res r : EventResult) (h : transferParams cfg coin ps i res = some r) :
    r.ExtrinsicIdx = res.ExtrinsicIdx ∧ r.EventIdx = res.EventIdx := by
  induction ps generalizing i res with
  | nil =>
    simp only [transferParams, Option.some.injEq] at h
    subst h; exact ⟨rfl, rfl⟩
  | cons p rest ih =>
    simp only [transferParams] at h
    split at h
    · exact Option.noConfusion h
    · rename_i res2 hres2
      have h2 : res2.ExtrinsicIdx = res.ExtrinsicIdx ∧ res2.EventIdx = res.EventIdx := by
        split at hres2
        · split at hres2
          · exact Option.noConfusion hres2
          · rename_i res1 hres1
            have h1 : res1.ExtrinsicIdx = res.ExtrinsicIdx ∧ res1.EventIdx = res.EventIdx := by
              split at hres1
              · split at hres1
                · simp only [Option.some.injEq] at hres1
                  subst hres1; exact ⟨rfl, rfl⟩
                · exact Option.noConfusion hres1
              · simp only [Option.some.injEq] at hres1
                subst hres1; exact ⟨rfl, rfl⟩
            split at hres2
            · split at hres2
              · simp only [Option.some.injEq] at hres2
                subst hres2; exact h1
              · exact Option.noConfusion hres2
            · simp only [Option.some.injEq] at hres2
              subst hres2; exact h1
        · simp only [Option.some.injEq] at hres2
          subst hres2; exact ⟨rfl, rfl⟩
      split at h
      · split at h
        · have := ih _ _ h
          exact ⟨this.1.trans h2.1, this.2.trans h2.2⟩
        · exact Option.noConfusion h
      · have := ih _ _ h
        exact ⟨this.1.trans h2.1, this.2.trans h2.2⟩

theorem eventCorrelation_idx (cfg : Config) (coin : String) (ev : EventResponse)
    (r : EventResult) (h : eventCorrelation cfg coin ev = some r) :
    r.ExtrinsicIdx = ev.ExtrinsicIdx ∧ r.EventIdx = ev.EventIdx :=
  transferParams_idx cfg coin ev.Params 0 _ r h

theorem successMap_cons (cfg : Config) (ev : EventResponse) (rest : List EventResponse)
    (k : Int) :
    successMap cfg (ev :: rest) k
      = (successMap cfg rest k).or (if ev.ExtrinsicIdx = k then statusEntry cfg ev else none) := by
  unfold successMap
  rw [List.filterMap_cons]
  cases hf : (if ev.ExtrinsicIdx = k then statusEntry cfg ev else none) with
  | none => simp
  | some b =>
    simp only []
    rw [← List.singleton_append, List.getLast?_append]
    simp

theorem correlations_cons (cfg : Config) (coin : String) (ev : EventResponse)
    (rest : List EventResponse) :
    correlations cfg coin (ev :: rest)
      = (if isBalancesTransfer cfg ev then (eventCorrelation cfg coin ev).toList else [])
          ++ correlations cfg coin rest := by
  unfold correlations
  rw [List.filterMap_cons]
  by_cases hb : isBalancesTransfer cfg ev = true
  · cases hc : eventCorrelation cfg coin ev <;> simp [hb, hc]
  · simp [hb]

theorem scanEvents_some (cfg : Config) (coin : String) (events : List EventResponse)
    (sm : Int → Option Bool) (rs : List EventResult) (sm1 : Int → Option Bool)
    (rs1 : List EventResult) (h : scanEvents cfg coin events sm rs = some (sm1, rs1)) :
    rs1 = rs ++ correlations cfg coin events
      ∧ ∀ k, sm1 k = (successMap cfg events k).or (sm k) := by
  induction events generalizing sm rs with
  | nil =>
    simp only [scanEvents, Option.some.injEq, Prod.mk.injEq] at h
    obtain ⟨h1, h2⟩ := h
    subst h1; subst h2
    simp [correlations, successMap]
  | cons ev rest ih =>
    simp only [scanEvents] at h
    by_cases hF : ev.EventId = cfg.ExtrinsicFailed
    · rw [if_pos hF] at h
      obtain ⟨h1, h2⟩ := ih _ _ h
      refine ⟨?_, fun k => ?_⟩
      · rw [h1, correlations_cons]; simp [isBalancesTransfer, hF]
      · rw [h2 k, successMap_cons]
        by_cases hk : ev.ExtrinsicIdx = k
        · cases hs : successMap cfg rest k <;> simp [statusSet, statusEntry, hF, hk]
        · have hk2 : ¬ k = ev.ExtrinsicIdx := fun h => hk h.symm
          cases hs : successMap cfg rest k <;> simp [statusSet, hk, hk2]
    · by_cases hS : ev.EventId = cfg.ExtrinsicSuccess
      · have hF2 : ¬ cfg.ExtrinsicSuccess = cfg.ExtrinsicFailed := fun h => hF (hS.trans h)
        rw [if_neg hF, if_pos hS] at h
        obtain ⟨h1, h2⟩ := ih _ _ h
        refine ⟨?_, fun k => ?_⟩
        · rw [h1, correlations_cons]; simp [isBalancesTransfer, hS]
        · rw [h2 k, successMap_cons]
          by_cases hk : ev.ExtrinsicIdx = k
          · cases hs : successMap cfg rest k <;> simp [statusSet, statusEntry, hF2, hS, hk]
          · have hk2 : ¬ k = ev.ExtrinsicIdx := fun h => hk h.symm
            cases hs : successMap cfg rest k <;> simp [statusSet, hk, hk2]
      · by_cases hT : ev.EventId = cfg.Transfer
        · by_cases hB : ev.ModuleId = "Balances"
          · by_cases hP : ev.Params.length ≤ 0
            · rw [if_neg hF, if_neg hS, if_pos hT, if_pos hB, if_pos hP] at h
              have hP0 : ev.Params.length = 0 := Nat.le_zero.mp hP
              obtain ⟨h1, h2⟩ := ih _ _ h
              refine ⟨?_, fun k => ?_⟩
              · rw [h1, correlations_cons]; simp [isBalancesTransfer, hP0]
              · rw [h2 k, successMap_cons]
                have hF2 : ¬ cfg.Transfer = cfg.ExtrinsicFailed := fun h => hF (hT.trans h)
                have hS2 : ¬ cfg.Transfer = cfg.ExtrinsicSuccess := fun h => hS (hT.trans h)
                by_cases hk : ev.ExtrinsicIdx = k
                · cases hs : successMap cfg rest k <;>
                    simp [statusSet, statusEntry, hF2, hS2, hT, hB, hP0, hk]
                · have hk2 : ¬ k = ev.ExtrinsicIdx := fun h => hk h.symm
                  cases hs : successMap cfg rest k <;> simp [statusSet, hk, hk2]
            · rw [if_neg hF, if_neg hS, if_pos hT, if_pos hB, if_neg hP] at h
              have hP0 : ¬ ev.Params.length = 0 := fun h0 => hP (Nat.le_of_eq h0)
              have hpos : 0 < ev.Params.length := Nat.pos_of_ne_zero hP0
              have hF2 : ¬ cfg.Transfer = cfg.ExtrinsicFailed := fun h => hF (hT.trans h)
              have hS2 : ¬ cfg.Transfer = cfg.ExtrinsicSuccess := fun h => hS (hT.trans h)
              cases hc : eventCorrelation cfg coin ev with
              | none => simp [hc] at h
              | some res =>
                simp only [hc] at h
                obtain ⟨h1, h2⟩ := ih _ _ h
                refine ⟨?_, fun k => ?_⟩
                · rw [h1, correlations_cons]
                  simp [isBalancesTransfer, hF2, hS2, hT, hB, hpos, hc]
                · rw [h2 k, successMap_cons]
                  simp [statusEntry, hF2, hS2, hT, hB, hP0]
          · rw [if_neg hF, if_neg hS, if_pos hT, if_neg hB] at h
            have hF2 : ¬ cfg.Transfer = cfg.ExtrinsicFailed := fun h => hF (hT.trans h)
            have hS2 : ¬ cfg.Transfer = cfg.ExtrinsicSuccess := fun h => hS (hT.trans h)
            obtain ⟨h1, h2⟩ := ih _ _ h
            refine ⟨?_, fun k => ?_⟩
            · rw [h1, correlations_cons]; simp [isBalancesTransfer, hB]
            · rw [h2 k, successMap_cons]
              simp [statusEntry, hF2, hS2, hT, hB]
        · rw [if_neg hF, if_neg hS, if_neg hT] at h
          obtain ⟨h1, h2⟩ := ih _ _ h
          refine ⟨?_, fun k => ?_⟩
          · rw [h1, correlations_cons]; simp [isBalancesTransfer, hT]
          · rw [h2 k, successMap_cons]
            simp [statusEntry, hF, hS, hT]

theorem scanEvents_none_of_bad (cfg : Config) (coin : String) (events : List EventResponse)
    (sm : Int → Option Bool) (rs : List EventResult)
    (h : ∃ ev ∈ events, isBalancesTransfer cfg ev = true ∧ eventCorrelation cfg coin ev = none) :
    scanEvents cfg coin events sm rs = none := by
  induction events generalizing sm rs with
  | nil => obtain ⟨ev, hev, _⟩ := h; cases hev
  | cons e rest ih =>
    obtain ⟨ev, hev, hb, hc⟩ := h
    rcases List.mem_cons.mp hev with heq | hmem
    · subst heq
      simp only [isBalancesTransfer, Bool.and_eq_true, Bool.not_eq_true', decide_eq_false_iff_not,
        decide_eq_true_eq] at hb
      obtain ⟨⟨⟨⟨hF, hS⟩, hT⟩, hB⟩, hP⟩ := hb
      have hP2 : ¬ ev.Params.length ≤ 0 := Nat.not_le.mpr hP
      simp only [scanEvents]
      rw [if_neg hF, if_neg hS, if_pos hT, if_pos hB, if_neg hP2, hc]
    · have hrest := fun sm rs => ih sm rs ⟨ev, hmem, hb, hc⟩
      simp only [scanEvents]
      split
      · exact hrest _ _
      · split
        · exact hrest _ _
        · split
          · split
            · split
              · exact hrest _ _
              · split
                · rfl
                · exact hrest _ _
            · exact hrest _ _
          · exact hrest _ _

/-! ### `parseExtrinsicByStorage`: the merge -/

theorem mergeResults_identity (cfg : Config) (events : List EventResponse)
    (sm : Int → Option Bool) (rs : List EventResult) (e : ExtrinsicResponse) :
    identity (mergeResults cfg events sm e rs).1 = identity e := by
  induction rs generalizing e with
  | nil => rfl
  | cons r rest ih =>
    simp only [mergeResults]
    split
    · rename_i hk
      split
      · simp [identity]
      · rw [ih]; simp [identity, hk.2]
    · exact ih e

theorem mergeResults_no_match (cfg : Config) (events : List EventResponse)
    (sm : Int → Option Bool) (rs : List EventResult) (e : ExtrinsicResponse)
    (h : ∀ res ∈ rs, keyMatches e res = false) :
    mergeResults cfg events sm e rs = (e, false) := by
  induction rs with
  | nil => rfl
  | cons r rest ih =>
    have hr := h r (List.mem_cons_self _ _)
    have hk : ¬ (e.ExtrinsicIndex = r.ExtrinsicIdx ∧ e.ToAddress = r.To) := by
      intro hk
      simp [keyMatches, hk.1, hk.2] at hr
    simp only [mergeResults]
    rw [if_neg hk]
    exact ih (fun res hres => h res (List.mem_cons_of_mem _ hres))

theorem keyMatches_congr (e e2 : ExtrinsicResponse) (h1 : e2.ExtrinsicIndex = e.ExtrinsicIndex)
    (h2 : e2.ToAddress = e.ToAddress) : keyMatches e2 = keyMatches e := by
  funext res; simp [keyMatches, h1, h2]

theorem mergeResults_last (cfg : Config) (events : List EventResponse)
    (sm : Int → Option Bool) (rs : List EventResult) (e e1 : ExtrinsicResponse)
    (res : EventResult)
    (h : mergeResults cfg events sm e rs = (e1, false))
    (hlast : (rs.filter (keyMatches e)).getLast? = some res) :
    ∃ fee, calcFee cfg events e.ExtrinsicIndex = some fee
      ∧ e1 = enrich e (statusGet sm e.ExtrinsicIndex) res fee := by
  induction rs generalizing e with
  | nil => simp at hlast
  | cons r rest ih =>
    simp only [mergeResults] at h
    by_cases hk : e.ExtrinsicIndex = r.ExtrinsicIdx ∧ e.ToAddress = r.To
    · rw [if_pos hk] at h
      have hkm : keyMatches e r = true := by simp [keyMatches, hk.1, hk.2]
      cases hfee : calcFee cfg events e.ExtrinsicIndex with
      | none => simp [hfee] at h
      | some fee =>
        simp only [hfee] at h
        have he2 : ({ e with
            Status := if statusGet sm e.ExtrinsicIndex then "success" else "fail"
            Type_ := "transfer", Amount := r.Amount, Fee := fee, EventIndex := r.EventIdx,
            ToAddress := r.To } : ExtrinsicResponse)
            = enrich e (statusGet sm e.ExtrinsicIndex) r fee := by
          cases e; simp only [enrich] at hk ⊢; simp [hk.2]
        rw [he2] at h
        have hcongr : keyMatches (enrich e (statusGet sm e.ExtrinsicIndex) r fee) = keyMatches e :=
          keyMatches_congr _ _ rfl rfl
        rw [List.filter_cons, if_pos hkm] at hlast
        by_cases hnil : rest.filter (keyMatches e) = []
        · rw [hnil] at hlast
          simp only [List.getLast?_singleton, Option.some.injEq] at hlast
          subst hlast
          have hno : ∀ x ∈ rest, keyMatches (enrich e (statusGet sm e.ExtrinsicIndex) r fee) x
              = false := by
            intro x hx
            rw [hcongr]
            by_contra hc
            have : x ∈ rest.filter (keyMatches e) :=
              List.mem_filter.mpr ⟨hx, by simpa using hc⟩
            rw [hnil] at this
            cases this
          rw [mergeResults_no_match cfg events sm rest _ hno] at h
          exact ⟨fee, rfl, (Prod.mk.inj h).1.symm⟩
        · have hl : (rest.filter (keyMatches e)).getLast? = some res := by
            obtain ⟨x, xs, hxs⟩ := List.exists_cons_of_ne_nil hnil
            rw [hxs] at hlast ⊢
            simpa using hlast
          rw [← hcongr] at hl
          obtain ⟨fee2, hf2, he1⟩ := ih _ h hl
          have hf3 : fee2 = fee := by
            have : calcFee cfg events e.ExtrinsicIndex = some fee2 := hf2
            rw [hfee] at this
            exact (Option.some.inj this).symm
          subst hf3
          refine ⟨fee2, rfl, ?_⟩
          rw [he1]
          simp [enrich]
    · rw [if_neg hk] at h
      have hkm : keyMatches e r = false := by
        simp only [keyMatches, Bool.and_eq_false_imp, decide_eq_true_eq, decide_eq_false_iff_not]
        exact fun h1 h2 => hk ⟨h1, h2⟩
      rw [List.filter_cons] at hlast
      simp only [hkm] at hlast
      exact ih e h hlast

theorem mergeExtrinsics_identity (cfg : Config) (events : List EventResponse)
    (sm : Int → Option Bool) (rs : List EventResult) (recs : List ExtrinsicResponse) :
    (mergeExtrinsics cfg events sm rs recs).1.map identity = recs.map identity := by
  induction recs with
  | nil => rfl
  | cons e rest ih =>
    have hid := mergeResults_identity cfg events sm rs e
    simp only [mergeExtrinsics]
    split
    · rename_i e1 hm
      rw [hm] at hid
      simp [hid]
    · rename_i e1 hm
      rw [hm] at hid
      simp [hid, ih]

theorem mergeExtrinsics_get (cfg : Config) (events : List EventResponse)
    (sm : Int → Option Bool) (rs : List EventResult) (recs : List ExtrinsicResponse)
    (j : Nat) (e : ExtrinsicResponse) (he : recs[j]? = some e) :
    ∃ e1, (mergeExtrinsics cfg events sm rs recs).1[j]? = some e1
      ∧ (e1 = e ∨ e1 = (mergeResults cfg events sm e rs).1)
      ∧ ((mergeExtrinsics cfg events sm rs recs).2 = false →
          mergeResults cfg events sm e rs = (e1, false)) := by
  induction recs generalizing j with
  | nil => simp at he
  | cons x rest ih =>
    simp only [mergeExtrinsics]
    cases hm : mergeResults cfg events sm x rs with
    | mk x1 p =>
      cases p with
      | true =>
        cases j with
        | zero =>
          simp only [List.getElem?_cons_zero, Option.some.injEq] at he
          subst he
          exact ⟨x1, by simp, Or.inr (by rw [hm]), by simp⟩
        | succ n =>
          simp only [List.getElem?_cons_succ] at he
          exact ⟨e, by simpa using he, Or.inl rfl, by simp⟩
      | false =>
        cases j with
        | zero =>
          simp only [List.getElem?_cons_zero, Option.some.injEq] at he
          subst he
          exact ⟨x1, by simp, Or.inr (by rw [hm]), fun _ => hm⟩
        | succ n =>
          simp only [List.getElem?_cons_succ] at he
          obtain ⟨e1, h1, h2, h3⟩ := ih n he
          exact ⟨e1, by simpa using h1, h2, by simpa using h3⟩

theorem correlations_append (cfg : Config) (coin : String) (l1 l2 : List EventResponse) :
    correlations cfg coin (l1 ++ l2) = correlations cfg coin l1 ++ correlations cfg coin l2 := by
  simp [correlations]

theorem correlations_no_match (cfg : Config) (coin : String) (events : List EventResponse)
    (e : ExtrinsicResponse) (h : ∀ ev ∈ events, matchesRecord cfg coin e ev = false) :
    ∀ res ∈ correlations cfg coin events, keyMatches e res = false := by
  intro res hres
  obtain ⟨ev, hev, hf⟩ := List.mem_filterMap.mp hres
  have hm := h ev hev
  by_cases hb : isBalancesTransfer cfg ev = true
  · rw [if_pos hb] at hf
    simpa [matchesRecord, hb, hf] using hm
  · rw [if_neg hb] at hf
    exact Option.noConfusion hf

theorem correlations_last_match (cfg : Config) (coin : String) (events : List EventResponse)
    (e : ExtrinsicResponse) (ev : EventResponse)
    (h : (events.filter (matchesRecord cfg coin e)).getLast? = some ev) :
    ∃ res, eventCorrelation cfg coin ev = some res
      ∧ ((correlations cfg coin events).filter (keyMatches e)).getLast? = some res := by
  induction events using List.reverseRecOn with
  | nil => simp at h
  | append_singleton l x ih =>
    rw [correlations_append, List.filter_append, List.getLast?_append]
    by_cases hm : matchesRecord cfg coin e x = true
    · have hx : ev = x := by
        rw [List.filter_append, List.getLast?_append] at h
        simpa [List.filter_cons, hm] using h.symm
      subst hx
      have hb : isBalancesTransfer cfg ev = true := by
        simp only [matchesRecord, Bool.and_eq_true] at hm
        exact hm.1
      cases hc : eventCorrelation cfg coin ev with
      | none => simp [matchesRecord, hc] at hm
      | some res =>
        have hk : keyMatches e res = true := by simpa [matchesRecord, hb, hc] using hm
        exact ⟨res, rfl, by simp [correlations, hb, hc, List.filter_cons, hk]⟩
    · have hl : (l.filter (matchesRecord cfg coin e)).getLast? = some ev := by
        rw [List.filter_append, List.getLast?_append] at h
        simpa [List.filter_cons, hm] using h
      obtain ⟨res, hres, hlast⟩ := ih hl
      refine ⟨res, hres, ?_⟩
      have hno : (correlations cfg coin [x]).filter (keyMatches e) = [] := by
        rw [List.filter_eq_nil_iff]
        intro r hr
        have := correlations_no_match cfg coin [x] e
          (fun y hy => by
            rw [List.mem_singleton] at hy
            subst hy
            simpa using hm) r hr
        simp [this]
      rw [hno, hlast]
      rfl

theorem statusGet_successMap (cfg : Config) (events : List EventResponse)
    (sm : Int → Option Bool) (k : Int)
    (h : sm k = (successMap cfg events k).or none) :
    statusGet sm k = decide (successMap cfg events k = some true) := by
  rw [statusGet, h]
  cases successMap cfg events k with
  | none => rfl
  | some b => cases b <;> rfl

/-- C2 as stated fails: the sample log holds a `Balances` `Transfer` event that
matches the record on index and recipient, yet a later event makes the event
pass panic and the record comes back with its type still unset. -/
theorem parseExtrinsicByStorage_match_not_enriched :
    scanPanicEvents ≠ []
    ∧ sampleBlock.Extrinsic[0]? = some sampleRecord
    ∧ transferEvent ∈ scanPanicEvents
    ∧ matchesRecord demoConfig "polkadot" sampleRecord transferEvent = true
    ∧ (parseExtrinsicByStorage demoConfig "polkadot" (.decoded scanPanicEvents)
        sampleBlock).resp.Extrinsic[0]? = some sampleRecord
    ∧ sampleRecord.Type_ ≠ "transfer" := by
  decide

/-- C2 amended: for a non-empty decoded event list and the record `e` at
position `j`, when the call is not cut short by a panic and `ev` is the last
`Balances` `Transfer` event with parameters that matches `e` on extrinsic index
and event-derived recipient, the record at position `j` afterwards has type
"transfer", status "success" exactly when the success map holds `true` for the
index and "fail" otherwise, fee equal to `calcFee`, and the amount and event
index of `ev`; no error is returned. -/
theorem parseExtrinsicByStorage_enriches (cfg : Config) (coin : String)
    (events : List EventResponse) (blockResp : BlockResponse) (j : Nat)
    (e : ExtrinsicResponse) (ev : EventResponse)
    (hne : events ≠ [])
    (hrun : (parseExtrinsicByStorage cfg coin (.decoded events) blockResp).recovered = false)
    (he : blockResp.Extrinsic[j]? = some e)
    (hlast : (events.filter (matchesRecord cfg coin e)).getLast? = some ev) :
    ∃ e1, (parseExtrinsicByStorage cfg coin (.decoded events) blockResp).resp.Extrinsic[j]?
        = some e1
      ∧ e1.Type_ = "transfer"
      ∧ e1.Status = (if successMap cfg events e.ExtrinsicIndex = some true
          then "success" else "fail")
      ∧ calcFee cfg events e.ExtrinsicIndex = some e1.Fee
      ∧ (eventCorrelation cfg coin ev).map (fun res => res.Amount) = some e1.Amount
      ∧ e1.EventIndex = ev.EventIdx
      ∧ (parseExtrinsicByStorage cfg coin (.decoded events) blockResp).err = none := by
  have hlen : events.length > 0 := List.length_pos.mpr hne
  simp only [parseExtrinsicByStorage, if_pos hlen] at hrun ⊢
  cases hscan : scanEvents cfg coin events (fun _ => none) [] with
  | none => simp [hscan] at hrun
  | some pr =>
    obtain ⟨sm, rs⟩ := pr
    simp only [hscan] at hrun ⊢
    obtain ⟨hrs, hsm⟩ := scanEvents_some cfg coin events _ _ sm rs hscan
    simp only [List.nil_append] at hrs
    obtain ⟨e1, hget, -, hmerge⟩ := mergeExtrinsics_get cfg events sm rs blockResp.Extrinsic j e he
    have hm := hmerge hrun
    obtain ⟨res, hcorr, hl⟩ := correlations_last_match cfg coin events e ev hlast
    rw [← hrs] at hl
    obtain ⟨fee, hfee, he1⟩ := mergeResults_last cfg events sm rs e e1 res hm hl
    have hst := statusGet_successMap cfg events sm e.ExtrinsicIndex (hsm _)
    refine ⟨e1, hget, ?_, ?_, ?_, ?_, ?_, trivial⟩
    · rw [he1]; rfl
    · rw [he1, hst]
      by_cases hs : successMap cfg events e.ExtrinsicIndex = some true <;> simp [enrich, hs]
    · rw [he1, hfee]; rfl
    · rw [he1, hcorr]; rfl
    · rw [he1]
      exact (eventCorrelation_idx cfg coin ev res hcorr).2

/-- Witness of the amended C2 on the sample log: the record of extrinsic 2
becomes a successful transfer of 1000 with fee 15. -/
theorem parseExtrinsicByStorage_enriches_witness :
    ∃ e1, (parseExtrinsicByStorage demoConfig "polkadot" (.decoded goodEvents)
        sampleBlock).resp.Extrinsic[0]? = some e1
      ∧ e1.Type_ = "transfer"
      ∧ e1.Status = (if successMap demoConfig goodEvents sampleRecord.ExtrinsicIndex = some true
          then "success" else "fail")
      ∧ calcFee demoConfig goodEvents sampleRecord.ExtrinsicIndex = some e1.Fee
      ∧ (eventCorrelation demoConfig "polkadot" transferEvent).map (fun res => res.Amount)
          = some e1.Amount
      ∧ e1.EventIndex = transferEvent.EventIdx
      ∧ (parseExtrinsicByStorage demoConfig "polkadot" (.decoded goodEvents)
          sampleBlock).err = none :=
  parseExtrinsicByStorage_enriches demoConfig "polkadot" goodEvents sampleBlock 0 sampleRecord
    transferEvent (by decide) (by decide) (by decide) (by decide)

/-- C10: `parseExtrinsicByStorage` keeps the number and order of the records and
the index, hash, sender, recipient, signature, nonce and era of each of them;
a record that no `Balances` `Transfer` event matches on both extrinsic index
and recipient is returned with every field unchanged. -/
theorem parseExtrinsicByStorage_frame (cfg : Config) (coin : String)
    (events : List EventResponse) (blockResp : BlockResponse) :
    (parseExtrinsicByStorage cfg coin (.decoded events) blockResp).resp.Extrinsic.length
        = blockResp.Extrinsic.length
    ∧ (parseExtrinsicByStorage cfg coin (.decoded events) blockResp).resp.Extrinsic.map identity
        = blockResp.Extrinsic.map identity
    ∧ ∀ (j : Nat) (e : ExtrinsicResponse), blockResp.Extrinsic[j]? = some e →
        (∀ ev ∈ events, matchesRecord cfg coin e ev = false) →
        (parseExtrinsicByStorage cfg coin (.decoded events) blockResp).resp.Extrinsic[j]?
          = some e := by
  have key : (parseExtrinsicByStorage cfg coin (.decoded events) blockResp).resp.Extrinsic.map
        identity = blockResp.Extrinsic.map identity
      ∧ ∀ (j : Nat) (e : ExtrinsicResponse), blockResp.Extrinsic[j]? = some e →
        (∀ ev ∈ events, matchesRecord cfg coin e ev = false) →
        (parseExtrinsicByStorage cfg coin (.decoded events) blockResp).resp.Extrinsic[j]?
          = some e := by
    simp only [parseExtrinsicByStorage]
    by_cases hlen : events.length > 0
    · rw [if_pos hlen]
      cases hscan : scanEvents cfg coin events (fun _ => none) [] with
      | none => exact ⟨rfl, fun j e he _ => he⟩
      | some pr =>
        obtain ⟨sm, rs⟩ := pr
        obtain ⟨hrs, -⟩ := scanEvents_some cfg coin events _ _ sm rs hscan
        simp only [List.nil_append] at hrs
        refine ⟨mergeExtrinsics_identity cfg events sm rs blockResp.Extrinsic, ?_⟩
        intro j e he hno
        obtain ⟨e1, hget, hor, -⟩ :=
          mergeExtrinsics_get cfg events sm rs blockResp.Extrinsic j e he
        have hnm := mergeResults_no_match cfg events sm rs e
          (by rw [hrs]; exact correlations_no_match cfg coin events e hno)
        have he1 : e1 = e := by
          rcases hor with h | h
          · exact h
          · rw [h, hnm]
        rw [← he1]
        exact hget
    · rw [if_neg hlen]
      exact ⟨rfl, fun j e he _ => he⟩
  refine ⟨?_, key.1, key.2⟩
  have := congrArg List.length key.1
  simpa using this

/-- Witness of C10 on the sample log: no event concerns the record of
extrinsic 4, which is returned as it was. -/
theorem parseExtrinsicByStorage_frame_witness :
    sampleBlock.Extrinsic[1]? = some otherRecord
    ∧ (∀ ev ∈ goodEvents, matchesRecord demoConfig "polkadot" otherRecord ev = false)
    ∧ (parseExtrinsicByStorage demoConfig "polkadot" (.decoded goodEvents)
        sampleBlock).resp.Extrinsic[1]? = some otherRecord :=
  ⟨by decide, by decide,
    (parseExtrinsicByStorage_frame demoConfig "polkadot" goodEvents sampleBlock).2.2 1
      otherRecord (by decide) (by decide)⟩

/-- C8 as stated fails: when `calcFee` panics inside the merge loop the panic is
recovered and no error is returned, but the record being merged already
carries status, type and amount. -/
theorem parseExtrinsicByStorage_half_enriched :
    (parseExtrinsicByStorage demoConfig "polkadot" (.decoded feePanicEvents)
        sampleBlock).recovered = true
    ∧ (parseExtrinsicByStorage demoConfig "polkadot" (.decoded feePanicEvents)
        sampleBlock).err = none
    ∧ sampleBlock.Extrinsic[0]? = some sampleRecord
    ∧ (parseExtrinsicByStorage demoConfig "polkadot" (.decoded feePanicEvents)
        sampleBlock).resp.Extrinsic[0]?
        = some { sampleRecord with Status := "fail", Type_ := "transfer", Amount := "1000" }
    ∧ sampleRecord.Status = "" ∧ sampleRecord.Type_ = "" ∧ sampleRecord.Amount = "" := by
  decide

/-- C8 amended: every panic caught by the recovery boundary of
`parseExtrinsicByStorage` ends in a `nil` error; and when the panic comes from
the events decoder, or from the event pass (a `Balances` `Transfer` event with
parameters whose correlation result cannot be built), hence before the merge
loop, the block response is returned exactly as it was passed in. -/
theorem parseExtrinsicByStorage_recovers (cfg : Config) (coin : String) (fetch : EventsFetch)
    (blockResp : BlockResponse) :
    ((parseExtrinsicByStorage cfg coin fetch blockResp).recovered = true →
        (parseExtrinsicByStorage cfg coin fetch blockResp).err = none)
    ∧ (fetch = .decodePanic →
        (parseExtrinsicByStorage cfg coin fetch blockResp).recovered = true
        ∧ (parseExtrinsicByStorage cfg coin fetch blockResp).resp = blockResp)
    ∧ (∀ events, fetch = .decoded events →
        (∃ ev ∈ events, isBalancesTransfer cfg ev = true
          ∧ eventCorrelation cfg coin ev = none) →
        (parseExtrinsicByStorage cfg coin fetch blockResp).recovered = true
        ∧ (parseExtrinsicByStorage cfg coin fetch blockResp).resp = blockResp) := by
  refine ⟨?_, ?_, ?_⟩
  · cases fetch with
    | decoded events =>
      intro _
      simp only [parseExtrinsicByStorage]
      split
      · split <;> rfl
      · rfl
    | keyError msg => intro h; simp [parseExtrinsicByStorage] at h
    | rpcError msg => intro h; simp [parseExtrinsicByStorage] at h
    | decodePanic => intro _; rfl
    | marshalError => intro _; rfl
    | unmarshalError msg => intro h; simp [parseExtrinsicByStorage] at h
  · intro h; subst h; exact ⟨rfl, rfl⟩
  · intro events h hbad
    subst h
    have hne : events.length > 0 := by
      obtain ⟨ev, hev, _⟩ := hbad
      exact List.length_pos_of_mem hev
    have hscan := scanEvents_none_of_bad cfg coin events (fun _ => none) [] hbad
    simp only [parseExtrinsicByStorage, if_pos hne, hscan]
    exact ⟨trivial, trivial⟩

/-- Witness of the amended C8 on the sample log whose second `Transfer` event
makes the event pass panic. -/
theorem parseExtrinsicByStorage_recovers_witness :
    (∃ ev ∈ scanPanicEvents, isBalancesTransfer demoConfig ev = true
      ∧ eventCorrelation demoConfig "polkadot" ev = none)
    ∧ (parseExtrinsicByStorage demoConfig "polkadot" (.decoded scanPanicEvents)
        sampleBlock).recovered = true
    ∧ (parseExtrinsicByStorage demoConfig "polkadot" (.decoded scanPanicEvents)
        sampleBlock).resp = sampleBlock :=
  ⟨by decide,
    (parseExtrinsicByStorage_recovers demoConfig "polkadot" (.decoded scanPanicEvents)
      sampleBlock).2.2 scanPanicEvents rfl (by decide)⟩

/-! ### `parseExtrinsicByDecode`: the parameter loops -/

theorem getLast?_getD_append {α : Type} (a b : List α) (d : α) :
    (a ++ b).getLast?.getD d = b.getLast?.getD (a.getLast?.getD d) := by
  rw [List.getLast?_append]
  cases b.getLast? <;> simp

theorem scanNow_eq (ps : List ExtrinsicParam) (ts : Int) :
    scanNow ps ts
      = ((nowValues (ps.takeWhile (fun p => !badNow p))).getLast?.getD ts, ps.any badNow) := by
  induction ps generalizing ts with
  | nil => rfl
  | cons p rest ih =>
    by_cases hn : p.Name = "now"
    · cases hv : p.Value with
      | num v =>
        have hb : badNow p = false := by simp [badNow, hn, hv, JValue.asNum]
        simp only [scanNow, if_pos hn, hv, ih, List.takeWhile_cons, hb, Bool.not_false, if_true,
          List.any_cons, Bool.false_or]
        have : nowValues (p :: rest.takeWhile (fun p => !badNow p))
            = [v] ++ nowValues (rest.takeWhile (fun p => !badNow p)) := by
          simp [nowValues, List.filterMap_cons, hn, hv, JValue.asNum]
        rw [this, getLast?_getD_append]
        rfl
      | str s =>
        have hb : badNow p = true := by simp [badNow, hn, hv, JValue.asNum]
        simp [scanNow, hn, hv, List.takeWhile_cons, hb, nowValues]
      | arr r =>
        have hb : badNow p = true := by simp [badNow, hn, hv, JValue.asNum]
        simp [scanNow, hn, hv, List.takeWhile_cons, hb, nowValues]
      | other =>
        have hb : badNow p = true := by simp [badNow, hn, hv, JValue.asNum]
        simp [scanNow, hn, hv, List.takeWhile_cons, hb, nowValues]
    · have hb : badNow p = false := by simp [badNow, hn]
      simp only [scanNow, if_neg hn, ih, List.takeWhile_cons, hb, Bool.not_false, if_true,
        List.any_cons, Bool.false_or]
      have : nowValues (p :: rest.takeWhile (fun p => !badNow p))
          = nowValues (rest.takeWhile (fun p => !badNow p)) := by
        simp [nowValues, List.filterMap_cons, hn]
      rw [this]

theorem destOr_cons_dest (cfg : Config) (coin : String) (p : ExtrinsicParam)
    (rest : List ExtrinsicParam) (d v : String) (hn : p.Name = "dest")
    (hv : p.Value = .str v) :
    destOr cfg coin (p :: rest) d = destOr cfg coin rest (encodeAddress cfg coin v) := by
  unfold destOr
  rw [List.filter_cons, if_pos (by simpa using hn), List.getLast?_cons]
  cases h : (rest.filter (fun p => decide (p.Name = "dest"))).getLast? with
  | none => simp [hv]
  | some q => simp

theorem destOr_cons_other (cfg : Config) (coin : String) (p : ExtrinsicParam)
    (rest : List ExtrinsicParam) (d : String) (hn : ¬ p.Name = "dest") :
    destOr cfg coin (p :: rest) d = destOr cfg coin rest d := by
  unfold destOr
  rw [List.filter_cons, if_neg (by simpa using hn)]

theorem scanDest_eq (cfg : Config) (coin : String) (ps : List ExtrinsicParam)
    (bd : parseBlockExtrinsicParams) :
    scanDest cfg coin ps bd
      = if ps.any badDest then none
        else some { bd with to_ := destOr cfg coin ps bd.to_ } := by
  induction ps generalizing bd with
  | nil => simp [scanDest, destOr]
  | cons p rest ih =>
    by_cases hn : p.Name = "dest"
    · cases hv : p.Value with
      | str v =>
        have hb : badDest p = false := by simp [badDest, hn, hv, JValue.isStr]
        simp only [scanDest, if_pos hn, hv, ih, List.any_cons, hb, Bool.false_or,
          destOr_cons_dest cfg coin p rest bd.to_ v hn hv]
      | num n =>
        have hb : badDest p = true := by simp [badDest, hn, hv, JValue.isStr]
        simp [scanDest, hn, hv, hb]
      | arr r =>
        have hb : badDest p = true := by simp [badDest, hn, hv, JValue.isStr]
        simp [scanDest, hn, hv, hb]
      | other =>
        have hb : badDest p = true := by simp [badDest, hn, hv, JValue.isStr]
        simp [scanDest, hn, hv, hb]
    · have hb : badDest p = false := by simp [badDest, hn]
      simp only [scanDest, if_neg hn, ih, List.any_cons, hb, Bool.false_or,
        destOr_cons_other cfg coin p rest bd.to_ hn]

theorem batchArgs_eq (cfg : Config) (coin : String) (i : Nat) (raw : String)
    (resp : ExtrinsicDecodeResponse) (args : List UtilityCallArg)
    (params : List parseBlockExtrinsicParams) :
    batchArgs cfg coin i raw resp args params
      = params ++ (args.filter (fun arg => decide (arg.Name = "dest"))).map
          (innerCandidate cfg coin i raw resp) := by
  induction args generalizing params with
  | nil => simp [batchArgs]
  | cons arg rest ih =>
    by_cases hn : arg.Name = "dest"
    · simp [batchArgs, hn, ih, List.filter_cons, innerCandidate]
    · simp [batchArgs, hn, ih, List.filter_cons]

theorem batchValues_eq (cfg : Config) (coin : String) (i : Nat) (raw : String)
    (resp : ExtrinsicDecodeResponse) (values : List UtilityParamsValue)
    (params : List parseBlockExtrinsicParams) :
    batchValues cfg coin i raw resp values params
      = params ++ (values.filter isTransferCall).flatMap (fun value =>
          (value.CallArgs.filter (fun arg => decide (arg.Name = "dest"))).map
            (innerCandidate cfg coin i raw resp)) := by
  induction values generalizing params with
  | nil => simp [batchValues]
  | cons value rest ih =>
    simp only [batchValues]
    by_cases hm : value.CallModule = "Balances"
    · by_cases hf : value.CallFunction = "transfer" ∨ value.CallFunction = "transfer_keep_alive"
      · have ht : isTransferCall value = true := by
          rcases hf with h | h <;> simp [isTransferCall, hm, h]
        rw [if_pos hm, if_pos hf, List.filter_cons, if_pos ht, List.flatMap_cons]
        by_cases hl : value.CallArgs.length > 0
        · rw [if_pos hl, ih, batchArgs_eq, List.append_assoc]
        · have hnil : value.CallArgs = [] := by
            cases hc : value.CallArgs with
            | nil => rfl
            | cons a l => simp [hc] at hl
          rw [if_neg hl, ih, hnil]
          simp
      · have ht : isTransferCall value = false := by
          simp only [not_or] at hf
          simp [isTransferCall, hf.1, hf.2]
        rw [if_pos hm, if_neg hf, List.filter_cons, ht, ih]
        simp
    · have ht : isTransferCall value = false := by simp [isTransferCall, hm]
      rw [if_neg hm, List.filter_cons, ht, ih]
      simp

theorem batchParams_eq (cfg : Config) (coin : String) (i : Nat) (raw : String)
    (resp : ExtrinsicDecodeResponse) (ps : List ExtrinsicParam)
    (params : List parseBlockExtrinsicParams) :
    batchParams cfg coin i raw resp ps params
      = params ++ (ps.filter (fun p => decide (p.Name = "calls"))).flatMap (fun p =>
          ((innerCalls p).filter isTransferCall).flatMap (fun value =>
            (value.CallArgs.filter (fun arg => decide (arg.Name = "dest"))).map
              (innerCandidate cfg coin i raw resp))) := by
  induction ps generalizing params with
  | nil => simp [batchParams]
  | cons p rest ih =>
    by_cases hn : p.Name = "calls"
    · rw [List.filter_cons, if_pos (by simpa using hn), List.flatMap_cons]
      cases hv : p.Value with
      | arr r =>
        cases r with
        | none => simp [batchParams, hn, hv, ih, innerCalls]
        | some values =>
          simp [batchParams, hn, hv, ih, innerCalls, batchValues_eq, List.append_assoc]
      | str s => simp [batchParams, hn, hv, ih, innerCalls]
      | num n => simp [batchParams, hn, hv, ih, innerCalls]
      | other => simp [batchParams, hn, hv, ih, innerCalls]
    · rw [List.filter_cons, if_neg (by simpa using hn)]
      simp [batchParams, hn, ih]

/-! ### `parseExtrinsicByDecode`: the loop over the extrinsics -/

theorem decodeLoop_step_ok (cfg : Config) (coin : String) (decode : String → DecodeResult)
    (x : String) (rest : List String) (i : Nat) (ts : Int)
    (params : List parseBlockExtrinsicParams) (hok : stepOk decode x = true) :
    decodeLoop cfg coin decode (x :: rest) i ts params
      = decodeLoop cfg coin decode rest (i + 1) ((extrinsicNows decode x).getLast?.getD ts)
          (params ++ extrinsicCandidates cfg coin decode i x) := by
  unfold stepOk at hok
  unfold extrinsicNows extrinsicCandidates
  rw [decodeLoop]
  cases hd : decode x with
  | panic => simp [hd] at hok
  | marshalError msg => simp [hd] at hok
  | unmarshalError msg => simp [hd] at hok
  | ok resp =>
    simp only [hd] at hok ⊢
    by_cases hT : resp.CallModule = "Timestamp"
    · have hnd : isDirectTransfer resp = false := by simp [isDirectTransfer, hT]
      have hnb : isBatch resp = false := by simp [isBatch, hT]
      rw [if_pos hT] at hok
      have hany : resp.Params.any badNow = false := by simpa using hok
      simp only [if_pos hT, scanNow_eq, hany, hnd, hnb, Bool.false_eq_true, if_false,
        List.append_nil]
    · rw [if_neg hT] at hok
      simp only [if_neg hT]
      by_cases hB : resp.CallModule = "Balances"
      · have hnb : isBatch resp = false := by simp [isBatch, hB]
        by_cases hf : resp.CallModuleFunction = "transfer"
            ∨ resp.CallModuleFunction = "transfer_keep_alive"
        · have hdt : isDirectTransfer resp = true := by
            rcases hf with h | h <;> simp [isDirectTransfer, hB, h]
          rw [if_pos hdt] at hok
          have hany : resp.Params.any badDest = false := by simpa using hok
          simp only [if_pos hB, if_pos hf, scanDest_eq, hany, hdt, Bool.false_eq_true, if_false,
            if_true, List.getLast?_nil, Option.getD_none]
          rfl
        · have hdt : isDirectTransfer resp = false := by
            simp only [not_or] at hf
            simp [isDirectTransfer, hf.1, hf.2]
          simp only [if_pos hB, if_neg hf, hdt, hnb, Bool.false_eq_true, if_false,
            List.getLast?_nil, Option.getD_none, List.append_nil]
      · have hdt : isDirectTransfer resp = false := by simp [isDirectTransfer, hB]
        by_cases hU : resp.CallModule = "Utility"
        · by_cases hf : resp.CallModuleFunction = "batch"
          · have hb : isBatch resp = true := by simp [isBatch, hU, hf]
            simp only [if_neg hB, if_pos hU, if_pos hf, hdt, hb, Bool.false_eq_true, if_false,
              if_true, List.getLast?_nil, Option.getD_none, batchParams_eq, batchCandidates]
          · have hb : isBatch resp = false := by simp [isBatch, hf]
            simp only [if_neg hB, if_pos hU, if_neg hf, hdt, hb, Bool.false_eq_true, if_false,
              List.getLast?_nil, Option.getD_none, List.append_nil]
        · have hb : isBatch resp = false := by simp [isBatch, hU]
          simp only [if_neg hB, if_neg hU, hdt, hb, Bool.false_eq_true, if_false,
            List.getLast?_nil, Option.getD_none, List.append_nil]

theorem decodeLoop_step_panic (cfg : Config) (coin : String) (decode : String → DecodeResult)
    (x : String) (rest : List String) (i : Nat) (ts : Int)
    (params : List parseBlockExtrinsicParams) (hbad : stepPanics decode x = true) :
    decodeLoop cfg coin decode (x :: rest) i ts params
      = .panicked ((extrinsicNows decode x).getLast?.getD ts) := by
  unfold stepPanics at hbad
  unfold extrinsicNows
  rw [decodeLoop]
  cases hd : decode x with
  | panic => simp
  | marshalError msg => simp [hd] at hbad
  | unmarshalError msg => simp [hd] at hbad
  | ok resp =>
    simp only [hd] at hbad ⊢
    by_cases hT : resp.CallModule = "Timestamp"
    · rw [if_pos hT] at hbad
      simp only [if_pos hT, scanNow_eq, hbad]
    · rw [if_neg hT] at hbad
      by_cases hdt : isDirectTransfer resp = true
      · rw [if_pos hdt] at hbad
        simp only [isDirectTransfer, Bool.and_eq_true, Bool.or_eq_true, decide_eq_true_eq] at hdt
        simp only [if_neg hT, if_pos hdt.1, if_pos hdt.2, scanDest_eq, hbad, if_true,
          List.getLast?_nil, Option.getD_none]
      · rw [if_neg hdt] at hbad
        exact Bool.noConfusion hbad

theorem decodeLoop_ok (cfg : Config) (coin : String) (decode : String → DecodeResult)
    (blk : List String) (i : Nat) (ts : Int) (params : List parseBlockExtrinsicParams)
    (hok : ∀ x ∈ blk, stepOk decode x = true) :
    decodeLoop cfg coin decode blk i ts params
      = .done ((blk.flatMap (extrinsicNows decode)).getLast?.getD ts)
          (params ++ candidatesFrom cfg coin decode i blk) := by
  induction blk generalizing i ts params with
  | nil => simp [decodeLoop, candidatesFrom]
  | cons x rest ih =>
    rw [decodeLoop_step_ok cfg coin decode x rest i ts params (hok x (List.mem_cons_self _ _)),
      ih _ _ _ (fun y hy => hok y (List.mem_cons_of_mem _ hy)), List.flatMap_cons,
      getLast?_getD_append, candidatesFrom, List.append_assoc]

theorem decodeLoop_panic (cfg : Config) (coin : String) (decode : String → DecodeResult)
    (pre : List String) (bad : String) (post : List String) (i : Nat) (ts : Int)
    (params : List parseBlockExtrinsicParams)
    (hok : ∀ x ∈ pre, stepOk decode x = true) (hbad : stepPanics decode bad = true) :
    decodeLoop cfg coin decode (pre ++ bad :: post) i ts params
      = .panicked (((pre ++ [bad]).flatMap (extrinsicNows decode)).getLast?.getD ts) := by
  induction pre generalizing i ts params with
  | nil =>
    rw [List.nil_append, decodeLoop_step_panic cfg coin decode bad post i ts params hbad]
    simp
  | cons x rest ih =>
    rw [List.cons_append,
      decodeLoop_step_ok cfg coin decode x _ i ts params (hok x (List.mem_cons_self _ _)),
      ih _ _ _ (fun y hy => hok y (List.mem_cons_of_mem _ hy)), List.cons_append,
      List.flatMap_cons, getLast?_getD_append]

/-! ### `parseExtrinsicByDecode`: the response -/

theorem parseExtrinsicByDecode_ok (cfg : Config) (coin : String)
    (decode : String → DecodeResult) (blk : List String) (blockResp : BlockResponse)
    (hok : ∀ x ∈ blk, stepOk decode x = true) :
    parseExtrinsicByDecode cfg coin decode blk blockResp
      = ⟨{ blockResp with
            Timestamp := (blk.flatMap (extrinsicNows decode)).getLast?.getD 0
            Extrinsic := (candidatesFrom cfg coin decode 0 blk).map toRecord }, none, false⟩ := by
  rw [parseExtrinsicByDecode, decodeLoop_ok cfg coin decode blk 0 0 [] hok]
  simp only [List.nil_append]
  split
  · rename_i hlen
    rw [List.length_eq_zero] at hlen
    rw [hlen]; rfl
  · rfl

theorem extrinsicNows_eq_callNows (decode : String → DecodeResult) (x : String)
    (hok : stepOk decode x = true) : extrinsicNows decode x = callNows decode x := by
  unfold stepOk at hok
  unfold extrinsicNows callNows
  cases hd : decode x with
  | panic => rfl
  | marshalError msg => rfl
  | unmarshalError msg => rfl
  | ok resp =>
    simp only [hd] at hok ⊢
    by_cases hT : resp.CallModule = "Timestamp"
    · rw [if_pos hT] at hok
      rw [if_pos hT, if_pos hT]
      have hall : resp.Params.takeWhile (fun p => !badNow p) = resp.Params := by
        rw [List.takeWhile_eq_self_iff]
        intro p hp
        have : resp.Params.any badNow = false := by simpa using hok
        rw [List.any_eq_false] at this
        simpa using this p hp
      rw [hall]
    · rw [if_neg hT, if_neg hT]

theorem flatMap_extrinsicNows (decode : String → DecodeResult) (blk : List String)
    (hok : ∀ x ∈ blk, stepOk decode x = true) :
    blk.flatMap (extrinsicNows decode) = blk.flatMap (callNows decode) := by
  induction blk with
  | nil => rfl
  | cons x rest ih =>
    rw [List.flatMap_cons, List.flatMap_cons,
      extrinsicNows_eq_callNows decode x (hok x (List.mem_cons_self _ _)),
      ih (fun y hy => hok y (List.mem_cons_of_mem _ hy))]

theorem extrinsicCandidates_idx (cfg : Config) (coin : String) (decode : String → DecodeResult)
    (i : Nat) (x : String) :
    ∀ c ∈ extrinsicCandidates cfg coin decode i x, c.extrinsicIdx = (i : Int) := by
  intro c hc
  unfold extrinsicCandidates at hc
  split at hc
  · split at hc
    · rw [List.mem_singleton] at hc
      rw [hc]; rfl
    · split at hc
      · simp only [batchCandidates, List.mem_flatMap, List.mem_map] at hc
        obtain ⟨_, _, _, _, _, _, hcc⟩ := hc
        rw [← hcc]; rfl
      · cases hc
  · cases hc

theorem candidatesFrom_idx_ge (cfg : Config) (coin : String) (decode : String → DecodeResult)
    (s : Nat) (blk : List String) :
    ∀ c ∈ candidatesFrom cfg coin decode s blk, (s : Int) ≤ c.extrinsicIdx := by
  induction blk generalizing s with
  | nil => intro c hc; cases hc
  | cons x rest ih =>
    intro c hc
    rw [candidatesFrom, List.mem_append] at hc
    rcases hc with h | h
    · rw [extrinsicCandidates_idx cfg coin decode s x c h]
    · have := ih (s + 1) c h
      omega

theorem filter_candidatesFrom (cfg : Config) (coin : String) (decode : String → DecodeResult)
    (s : Nat) (blk : List String) (j : Nat) (raw : String) (h : blk[j]? = some raw) :
    (candidatesFrom cfg coin decode s blk).filter
        (fun c => decide (c.extrinsicIdx = ((s + j : Nat) : Int)))
      = extrinsicCandidates cfg coin decode (s + j) raw := by
  induction blk generalizing s j with
  | nil => simp at h
  | cons x rest ih =>
    rw [candidatesFrom, List.filter_append]
    cases j with
    | zero =>
      simp only [List.getElem?_cons_zero, Option.some.injEq] at h
      subst h
      have h1 : (extrinsicCandidates cfg coin decode s x).filter
          (fun c => decide (c.extrinsicIdx = ((s + 0 : Nat) : Int)))
          = extrinsicCandidates cfg coin decode s x := by
        rw [List.filter_eq_self]
        intro c hc
        simpa using extrinsicCandidates_idx cfg coin decode s x c hc
      have h2 : (candidatesFrom cfg coin decode (s + 1) rest).filter
          (fun c => decide (c.extrinsicIdx = ((s + 0 : Nat) : Int))) = [] := by
        rw [List.filter_eq_nil_iff]
        intro c hc
        have := candidatesFrom_idx_ge cfg coin decode (s + 1) rest c hc
        simp only [decide_eq_true_eq]
        omega
      rw [h1, h2, List.append_nil]
      rfl
    | succ n =>
      simp only [List.getElem?_cons_succ] at h
      have h1 : (extrinsicCandidates cfg coin decode s x).filter
          (fun c => decide (c.extrinsicIdx = ((s + (n + 1) : Nat) : Int))) = [] := by
        rw [List.filter_eq_nil_iff]
        intro c hc
        have := extrinsicCandidates_idx cfg coin decode s x c hc
        simp only [decide_eq_true_eq]
        omega
      have h2 := ih (s + 1) n h
      have hs : s + 1 + n = s + (n + 1) := by omega
      rw [hs] at h2
      rw [h1, h2, List.nil_append]

theorem records_at (cfg : Config) (coin : String) (decode : String → DecodeResult)
    (blk : List String) (blockResp : BlockResponse) (i : Nat) (raw : String)
    (hok : ∀ x ∈ blk, stepOk decode x = true) (h : blk[i]? = some raw) :
    (parseExtrinsicByDecode cfg coin decode blk blockResp).resp.Extrinsic.filter
        (fun r => decide (r.ExtrinsicIndex = (i : Int)))
      = (extrinsicCandidates cfg coin decode i raw).map toRecord := by
  rw [parseExtrinsicByDecode_ok cfg coin decode blk blockResp hok]
  simp only []
  rw [List.filter_map]
  have := filter_candidatesFrom cfg coin decode 0 blk i raw h
  simp only [Nat.zero_add] at this
  rw [← this]
  rfl

/-- C6: in a block whose extrinsics all decode, a `Balances.transfer` or
`Balances.transfer_keep_alive` extrinsic at position `i` yields exactly one
record with index `i`, carrying the extrinsic's own signer, signature, nonce
and era, the hash of the raw extrinsic and the address of its `dest`
parameter; an extrinsic whose module is neither `Balances` nor `Utility`
yields no record; and the block timestamp is the last `now` value of the
`Timestamp` calls, whatever the other extrinsics are. -/
theorem parseExtrinsicByDecode_direct (cfg : Config) (coin : String)
    (decode : String → DecodeResult) (blk : List String) (blockResp : BlockResponse)
    (hok : ∀ x ∈ blk, stepOk decode x = true) :
    (parseExtrinsicByDecode cfg coin decode blk blockResp).err = none
    ∧ (∀ (i : Nat) (raw : String) (resp : ExtrinsicDecodeResponse),
        blk[i]? = some raw → decode raw = .ok resp → isDirectTransfer resp = true →
        (parseExtrinsicByDecode cfg coin decode blk blockResp).resp.Extrinsic.filter
            (fun r => decide (r.ExtrinsicIndex = (i : Int)))
          = [{ Signature := resp.Signature
               FromAddress := encodeAddress cfg coin resp.AccountId
               ToAddress := destOr cfg coin resp.Params ""
               Nonce := resp.Nonce
               Era := resp.Era
               ExtrinsicIndex := (i : Int)
               Txid := createTxHash cfg raw }])
    ∧ (∀ (i : Nat) (raw : String) (resp : ExtrinsicDecodeResponse),
        blk[i]? = some raw → decode raw = .ok resp →
        resp.CallModule ≠ "Balances" → resp.CallModule ≠ "Utility" →
        (parseExtrinsicByDecode cfg coin decode blk blockResp).resp.Extrinsic.filter
            (fun r => decide (r.ExtrinsicIndex = (i : Int))) = [])
    ∧ (parseExtrinsicByDecode cfg coin decode blk blockResp).resp.Timestamp
        = (blk.flatMap (callNows decode)).getLast?.getD 0 := by
  refine ⟨?_, ?_, ?_, ?_⟩
  · rw [parseExtrinsicByDecode_ok cfg coin decode blk blockResp hok]
  · intro i raw resp hi hd hdt
    rw [records_at cfg coin decode blk blockResp i raw hok hi]
    simp only [extrinsicCandidates, hd, hdt, if_true, List.map_cons, List.map_nil]
    rfl
  · intro i raw resp hi hd hB hU
    rw [records_at cfg coin decode blk blockResp i raw hok hi]
    have h1 : isDirectTransfer resp = false := by simp [isDirectTransfer, hB]
    have h2 : isBatch resp = false := by simp [isBatch, hU]
    simp [extrinsicCandidates, hd, h1, h2]
  · rw [parseExtrinsicByDecode_ok cfg coin decode blk blockResp hok,
      flatMap_extrinsicNows decode blk hok]

/-- Witness of C6 on the sample block: the direct transfer at position 2 yields
the single record with index 2, paying "bb". -/
theorem parseExtrinsicByDecode_direct_witness :
    (∀ x ∈ demoBlock, stepOk demoDecode x = true)
    ∧ (parseExtrinsicByDecode demoConfig "polkadot" demoDecode demoBlock {}).resp.Extrinsic.filter
          (fun r => decide (r.ExtrinsicIndex = ((2 : Nat) : Int)))
        = [{ Signature := "sig", FromAddress := "addr1:aa", ToAddress := "addr1:bb", Nonce := 7,
             Era := "00", ExtrinsicIndex := 2, Txid := "0xh(0x01)" }]
    ∧ (parseExtrinsicByDecode demoConfig "polkadot" demoDecode demoBlock {}).resp.Timestamp
        = 1600000000 :=
  ⟨by decide,
    ((parseExtrinsicByDecode_direct demoConfig "polkadot" demoDecode demoBlock {}
      (by decide)).2.1 2 "0x01" _ (by decide) rfl (by decide)).trans (by decide),
    ((parseExtrinsicByDecode_direct demoConfig "polkadot" demoDecode demoBlock {}
      (by decide)).2.2.2).trans (by decide)⟩

/-- C5 as stated fails: a batch whose only inner call is a `Balances.transfer`
without an argument named `dest` yields no record at all, where the claim
expects one record for that inner call; and a batch whose `calls` array is
rejected by `json.Unmarshal` is skipped whole and yields no record either,
whatever inner calls the array holds. -/
theorem parseExtrinsicByDecode_batch_without_dest :
    demoDecode "0x06" = .ok
      { AccountId := "aa", CallModule := "Utility", CallModuleFunction := "batch",
        Era := "00", Signature := "sig4", Nonce := 10,
        Params := [⟨"calls", .arr (some [⟨"Balances", "transfer", [⟨"value", "5"⟩]⟩])⟩] }
    ∧ isTransferCall ⟨"Balances", "transfer", [⟨"value", "5"⟩]⟩ = true
    ∧ (parseExtrinsicByDecode demoConfig "polkadot" demoDecode ["0x06"] {}).recovered = false
    ∧ (parseExtrinsicByDecode demoConfig "polkadot" demoDecode ["0x06"] {}).err = none
    ∧ (parseExtrinsicByDecode demoConfig "polkadot" demoDecode ["0x06"] {}).resp.Extrinsic
        = []
    ∧ demoDecode "0x07" = .ok
      { AccountId := "aa", CallModule := "Utility", CallModuleFunction := "batch",
        Era := "00", Signature := "sig5", Nonce := 11,
        Params := [⟨"calls", .arr none⟩] }
    ∧ (parseExtrinsicByDecode demoConfig "polkadot" demoDecode ["0x07"] {}).recovered = false
    ∧ (parseExtrinsicByDecode demoConfig "polkadot" demoDecode ["0x07"] {}).err = none
    ∧ (parseExtrinsicByDecode demoConfig "polkadot" demoDecode ["0x07"] {}).resp.Extrinsic
        = [] := by
  decide

/-- C5 amended: the decode step of a `Utility.batch` extrinsic at position `i`
appends, for each `calls` parameter whose value is an array that
`json.Unmarshal` accepts as `[]v11.UtilityParamsValue` and each inner Balances
transfer call of the unmarshalled list, in order, one candidate per argument
named `dest` (so exactly one for an inner call with exactly one `dest`
argument, none for any other inner call), each with index `i`, the outer signature, nonce, era and
sender, the hash of the outer raw extrinsic and the address of that
argument; a `calls` value that is not an array, or an array that
`json.Unmarshal` rejects, contributes nothing; in a block whose extrinsics
all decode, the records with index `i` are exactly these candidates. -/
theorem parseExtrinsicByDecode_batch (cfg : Config) (coin : String)
    (decode : String → DecodeResult) (raw : String) (resp : ExtrinsicDecodeResponse)
    (hd : decode raw = .ok resp) (hb : isBatch resp = true) :
    (∀ (rest : List String) (i : Nat) (ts : Int) (params : List parseBlockExtrinsicParams),
        decodeLoop cfg coin decode (raw :: rest) i ts params
          = decodeLoop cfg coin decode rest (i + 1) ts
              (params ++ batchCandidates cfg coin i raw resp))
    ∧ (∀ (i : Nat), batchCandidates cfg coin i raw resp
        = (resp.Params.filter (fun p => decide (p.Name = "calls"))).flatMap (fun p =>
            match p.Value with
            | .arr (some values) =>
              (values.filter isTransferCall).flatMap (fun value =>
                (value.CallArgs.filter (fun arg => decide (arg.Name = "dest"))).map
                  (fun arg =>
                    ({ from_ := encodeAddress cfg coin resp.AccountId
                       to_ := encodeAddress cfg coin arg.ValueRaw
                       sig := resp.Signature
                       era := resp.Era
                       txid := createTxHash cfg raw
                       nonce := resp.Nonce
                       extrinsicIdx := (i : Int) } : parseBlockExtrinsicParams)))
            | .arr none => []
            | _ => []))
    ∧ (∀ (blk : List String) (blockResp : BlockResponse) (i : Nat),
        (∀ x ∈ blk, stepOk decode x = true) → blk[i]? = some raw →
        (parseExtrinsicByDecode cfg coin decode blk blockResp).resp.Extrinsic.filter
            (fun r => decide (r.ExtrinsicIndex = (i : Int)))
          = (batchCandidates cfg coin i raw resp).map toRecord) := by
  have hU : resp.CallModule = "Utility" := by
    simp only [isBatch, Bool.and_eq_true, decide_eq_true_eq] at hb
    exact hb.1
  have hdt : isDirectTransfer resp = false := by simp [isDirectTransfer, hU]
  have hT : ¬ resp.CallModule = "Timestamp" := by rw [hU]; decide
  have hcand : ∀ i, extrinsicCandidates cfg coin decode i raw
      = batchCandidates cfg coin i raw resp := by
    intro i
    simp [extrinsicCandidates, hd, hdt, hb]
  have hstep : stepOk decode raw = true := by
    simp [stepOk, hd, hT, hdt]
  refine ⟨?_, ?_, ?_⟩
  · intro rest i ts params
    rw [decodeLoop_step_ok cfg coin decode raw rest i ts params hstep, hcand]
    simp [extrinsicNows, hd, hT]
  · intro i
    unfold batchCandidates
    congr 1
    funext p
    cases hv : p.Value with
    | arr r =>
      cases r with
      | none => simp [innerCalls, hv]
      | some values => simp only [innerCalls, hv]; rfl
    | str s => simp [innerCalls, hv]
    | num n => simp [innerCalls, hv]
    | other => simp [innerCalls, hv]
  · intro blk blockResp i hok hi
    rw [records_at cfg coin decode blk blockResp i raw hok hi, hcand]

/-- Witness of the amended C5 on the sample block: the batch at position 3 wraps
two inner Balances transfers and yields two records with index 3. -/
theorem parseExtrinsicByDecode_batch_witness :
    (∀ x ∈ demoBlock, stepOk demoDecode x = true)
    ∧ demoBlock[3]? = some "0x02"
    ∧ (parseExtrinsicByDecode demoConfig "polkadot" demoDecode demoBlock {}).resp.Extrinsic.filter
          (fun r => decide (r.ExtrinsicIndex = ((3 : Nat) : Int)))
        = [{ Signature := "sig2", FromAddress := "addr1:aa", ToAddress := "addr1:cc", Nonce := 8,
             Era := "00", ExtrinsicIndex := 3, Txid := "0xh(0x02)" },
           { Signature := "sig2", FromAddress := "addr1:aa", ToAddress := "addr1:dd", Nonce := 8,
             Era := "00", ExtrinsicIndex := 3, Txid := "0xh(0x02)" }] :=
  ⟨by decide, by decide,
    ((parseExtrinsicByDecode_batch demoConfig "polkadot" demoDecode "0x02" _ rfl
      (by decide)).2.2 demoBlock {} 3 (by decide) (by decide)).trans (by decide)⟩

/-- C7 as stated fails: a `Timestamp` call at position 0 whose second `now`
parameter is not a number panics after its first `now` parameter has been
read, and the response carries that value instead of the 0 that the
(empty) run of extrinsics before position 0 gives. -/
theorem parseExtrinsicByDecode_timestamp_of_failing :
    stepPanics demoDecode "0x05" = true
    ∧ (parseExtrinsicByDecode demoConfig "polkadot" demoDecode ["0x05"] {}).recovered = true
    ∧ (parseExtrinsicByDecode demoConfig "polkadot" demoDecode ["0x05"] {}).resp.Timestamp = 1
    ∧ (([] : List String).flatMap (callNows demoDecode)).getLast?.getD 0 = 0 := by
  decide

/-- C7 amended: when the decode step of the extrinsic at position `k` panics
while all extrinsics before `k` decode, `parseExtrinsicByDecode` returns no
error, the extrinsic list of the response is empty, and the timestamp is the
last `now` value read before the panic: among the `Timestamp` calls before
`k` and the `now` parameters of extrinsic `k` that precede the failing one (0
if there is none); it is the last `now` value before position `k` whenever
extrinsic `k` read no `now` parameter before failing. -/
theorem parseExtrinsicByDecode_recovers (cfg : Config) (coin : String)
    (decode : String → DecodeResult) (pre : List String) (bad : String) (post : List String)
    (blockResp : BlockResponse)
    (hok : ∀ x ∈ pre, stepOk decode x = true) (hbad : stepPanics decode bad = true) :
    (parseExtrinsicByDecode cfg coin decode (pre ++ bad :: post) blockResp).err = none
    ∧ (parseExtrinsicByDecode cfg coin decode (pre ++ bad :: post) blockResp).recovered = true
    ∧ (parseExtrinsicByDecode cfg coin decode (pre ++ bad :: post) blockResp).resp.Extrinsic = []
    ∧ (parseExtrinsicByDecode cfg coin decode (pre ++ bad :: post) blockResp).resp.Timestamp
        = (pre.flatMap (callNows decode) ++ extrinsicNows decode bad).getLast?.getD 0
    ∧ (extrinsicNows decode bad = [] →
        (parseExtrinsicByDecode cfg coin decode (pre ++ bad :: post) blockResp).resp.Timestamp
          = (pre.flatMap (callNows decode)).getLast?.getD 0) := by
  have hrun : parseExtrinsicByDecode cfg coin decode (pre ++ bad :: post) blockResp
      = ⟨{ blockResp with
            Timestamp := (pre.flatMap (callNows decode)
              ++ extrinsicNows decode bad).getLast?.getD 0
            Extrinsic := [] }, none, true⟩ := by
    rw [parseExtrinsicByDecode,
      decodeLoop_panic cfg coin decode pre bad post 0 0 [] hok hbad, List.flatMap_append,
      flatMap_extrinsicNows decode pre hok]
    simp
  rw [hrun]
  refine ⟨rfl, rfl, rfl, rfl, ?_⟩
  intro hnil
  rw [hnil, List.append_nil]

/-- Witness of the amended C7: the decoder panics on the third extrinsic of a
block that starts with a timestamp and a transfer. -/
theorem parseExtrinsicByDecode_recovers_witness :
    (∀ x ∈ ["0x00", "0x01"], stepOk demoDecode x = true)
    ∧ stepPanics demoDecode "0x04" = true
    ∧ (parseExtrinsicByDecode demoConfig "polkadot" demoDecode
        (["0x00", "0x01"] ++ "0x04" :: ["0x02"]) {}).resp.Extrinsic = []
    ∧ (parseExtrinsicByDecode demoConfig "polkadot" demoDecode
        (["0x00", "0x01"] ++ "0x04" :: ["0x02"]) {}).resp.Timestamp = 1600000000 :=
  ⟨by decide, by decide,
    (parseExtrinsicByDecode_recovers demoConfig "polkadot" demoDecode ["0x00", "0x01"] "0x04"
      ["0x02"] {} (by decide) (by decide)).2.2.1,
    ((parseExtrinsicByDecode_recovers demoConfig "polkadot" demoDecode ["0x00", "0x01"] "0x04"
      ["0x02"] {} (by decide) (by decide)).2.2.2.1).trans (by decide)⟩

/-! ### `initRuntimeVersion` -/

/-- C3 fails on the code: after a metadata refresh for spec version 5 has
failed, the next call observes version 5 again, sends no metadata request and
returns without error, while the client still holds the handle parsed for
version 4 next to `SpecVersion` 5. -/
theorem initRuntimeVersion_keeps_stale_metadata :
    sessionStart.err = none
    ∧ sessionStart.client.SpecVersion = 4
    ∧ sessionStart.client.Metadata = some ⟨"meta4"⟩
    ∧ sessionFailedRefresh.err = some "parse metadata error,err=bad"
    ∧ sessionRetry.err = none
    ∧ sessionRetry.panicked = false
    ∧ sessionRetry.effects = [.request "state_getRuntimeVersion"]
    ∧ sessionRetry.client.SpecVersion = 5
    ∧ sessionRetry.client.Metadata = some ⟨"meta4"⟩ := by
  decide

/-- C4 as stated fails for spec version 0: a newly created client already holds
`SpecVersion` 0, so two calls that both observe version 0 send no metadata
request and run no parse at all.  Moreover two calls that observe the same
version under different spec names do not leave `CoinType` as it was. -/
theorem initRuntimeVersion_version_zero_never_fetches :
    ((firstCall demoConfig "Polkadot" 1 0 (.ok "meta0")).effects
        ++ (secondCall demoConfig "Polkadot" 1 1 0 (.ok "meta0") (.ok "meta0")).effects).count
      (.request "state_getMetadata") = 0
    ∧ ((firstCall demoConfig "Polkadot" 1 0 (.ok "meta0")).effects
        ++ (secondCall demoConfig "Polkadot" 1 1 0 (.ok "meta0") (.ok "meta0")).effects).count
      .parseMetadata = 0
    ∧ (secondCall demoConfig "Polkadot" 1 1 0 (.ok "meta0") (.ok "meta0")).client.Metadata
      = none
    ∧ (firstCall demoConfig "Polkadot" 1 9 (.ok "meta9")).client.CoinType = "polkadot"
    ∧ (initRuntimeVersion demoConfig (.ok (.str "Kusama") (.num 1) (.num 9)) (.ok "meta9")
        (firstCall demoConfig "Polkadot" 1 9 (.ok "meta9")).client).client.CoinType
      = "kusama" := by
  decide

/-- C4 amended: for every spec version `v` other than 0, of two consecutive
`initRuntimeVersion` calls on a newly created client that both observe `v`
(and the same spec name), when the metadata refresh of the first call
succeeds, the first call performs exactly one metadata request and one parse
and the second performs none; the second call returns no error and leaves
`SpecVersion`, `CoinType` and the metadata handle, the one parsed by the
first call, as the first call left them. -/
theorem initRuntimeVersion_idempotent (cfg : Config) (name : String) (tv1 tv2 v : Int)
    (data : String) (m2 : MetadataReply) (hv : v ≠ 0) :
    (firstCall cfg name tv1 v (.ok data)).err = none
    ∧ (firstCall cfg name tv1 v (.ok data)).panicked = false
    ∧ (firstCall cfg name tv1 v (.ok data)).effects.count (.request "state_getMetadata") = 1
    ∧ (firstCall cfg name tv1 v (.ok data)).effects.count .parseMetadata = 1
    ∧ (firstCall cfg name tv1 v (.ok data)).client.SpecVersion = v
    ∧ (firstCall cfg name tv1 v (.ok data)).client.Metadata = some ⟨data⟩
    ∧ (secondCall cfg name tv1 tv2 v (.ok data) m2).effects.count
        (.request "state_getMetadata") = 0
    ∧ (secondCall cfg name tv1 tv2 v (.ok data) m2).effects.count .parseMetadata = 0
    ∧ (secondCall cfg name tv1 tv2 v (.ok data) m2).err = none
    ∧ (secondCall cfg name tv1 tv2 v (.ok data) m2).panicked = false
    ∧ (secondCall cfg name tv1 tv2 v (.ok data) m2).client.SpecVersion
        = (firstCall cfg name tv1 v (.ok data)).client.SpecVersion
    ∧ (secondCall cfg name tv1 tv2 v (.ok data) m2).client.CoinType
        = (firstCall cfg name tv1 v (.ok data)).client.CoinType
    ∧ (secondCall cfg name tv1 tv2 v (.ok data) m2).client.Metadata
        = (firstCall cfg name tv1 v (.ok data)).client.Metadata := by
  have hv2 : ¬ (0 : Int) = v := fun h => hv h.symm
  simp [firstCall, secondCall, initRuntimeVersion, initMetaData, JValue.asNum, hv2,
    List.count_cons]

/-- Witness of the amended C4 for spec version 9. -/
theorem initRuntimeVersion_idempotent_witness :
    (9 : Int) ≠ 0
    ∧ (firstCall demoConfig "Polkadot" 1 9 (.ok "meta9")).effects.count
        (.request "state_getMetadata") = 1
    ∧ (firstCall demoConfig "Polkadot" 1 9 (.ok "meta9")).effects.count .parseMetadata = 1
    ∧ (secondCall demoConfig "Polkadot" 1 1 9 (.ok "meta9") (.ok "meta9")).effects.count
        (.request "state_getMetadata") = 0
    ∧ (secondCall demoConfig "Polkadot" 1 1 9 (.ok "meta9") (.ok "meta9")).client.Metadata
        = (firstCall demoConfig "Polkadot" 1 9 (.ok "meta9")).client.Metadata :=
  ⟨by decide,
    (initRuntimeVersion_idempotent demoConfig "Polkadot" 1 1 9 "meta9" (.ok "meta9")
      (by decide)).2.2.1,
    (initRuntimeVersion_idempotent demoConfig "Polkadot" 1 1 9 "meta9" (.ok "meta9")
      (by decide)).2.2.2.1,
    (initRuntimeVersion_idempotent demoConfig "Polkadot" 1 1 9 "meta9" (.ok "meta9")
      (by decide)).2.2.2.2.2.2.1,
    (initRuntimeVersion_idempotent demoConfig "Polkadot" 1 1 9 "meta9" (.ok "meta9")
      (by decide)).2.2.2.2.2.2.2.2.2.2.2.2⟩

end SubstrateGo
